import Mathlib

/-! sunlitsparrow: the schema-tolerant retrieval engine

A shallow embedding of `internal/history/models.go` and
`internal/history/repository.go`, followed by theorems about them.

Conventions of the embedding.

* Go `error` values are their messages (`String`); a Go result pair
  `(v, err)` is an `Except String`.
* A Go `int` is 64 bits wide (the program reads a macOS application's store).
* The `database/sql` connection is an oracle `DB`: the store is only read, so
  the outcome of a statement is a function of its text and arguments.  Every
  function that talks to the store also returns the list of statements it
  issued, in order.
* `logger.Debug` calls write diagnostics only and are left out.
-/

namespace History

/-! ## Bytes and float64 -/

/-- One byte of a Go `[]byte`. -/
abbrev Byte := Fin 256

/-- A float64.  A finite value is the dyadic rational `m * 2 ^ e`. -/
inductive F64 where
  | finite (m : Int) (e : Int)
  | infinite (negative : Bool)
  | nan
  deriving DecidableEq, Repr

/-- Rounding of the exact value `M * 2 ^ e` to 53 significant bits, to nearest,
ties to even (the IEEE 754 default).  The exponent range is not bounded here: an IEEE
overflow has magnitude at least `2 ^ 1024` and an IEEE subnormal has magnitude below
`2 ^ (-1022)`, and `F64.toInt64` treats such values as IEEE arithmetic would (out of
range, respectively truncated to zero). -/
def F64.round53 (M : Int) (e : Int) : F64 :=
  let n := M.natAbs
  if n < 2 ^ 53 then F64.finite M e
  else
    let k := Nat.log2 n - 52
    let q := n / 2 ^ k
    let r := n % 2 ^ k
    let half := 2 ^ (k - 1)
    let q1 := if half < r ∨ (r = half ∧ q % 2 = 1) then q + 1 else q
    F64.finite (Int.sign M * (q1 : Int)) (e + (k : Int))

/-- The float64 product `x * float64(n)` for an integer `n` that float64 represents
exactly. -/
def F64.mulInt (x : F64) (n : Int) : F64 :=
  match x with
  | F64.finite m e => F64.round53 (m * n) e
  | F64.infinite neg => if n = 0 then F64.nan else F64.infinite (if 0 < n then neg else !neg)
  | F64.nan => F64.nan

/-- The integer part of `m * 2 ^ e`, the fraction discarded (truncation towards zero). -/
def truncDyadic (m e : Int) : Int :=
  if 0 ≤ e then m * 2 ^ e.toNat else Int.sign m * ((m.natAbs / 2 ^ (-e).toNat : Nat) : Int)

/-- The Go conversion `int64(x)`.  When `x` is not representable the conversion succeeds
with an implementation-dependent int64, given by `impl`. -/
def F64.toInt64 (impl : F64 → Int) (x : F64) : Int :=
  match x with
  | F64.finite m e =>
      let v := truncDyadic m e
      if -2 ^ 63 ≤ v ∧ v < 2 ^ 63 then v else impl x
  | _ => impl x

/-! ## time.Time -/

/-- An instant: nanoseconds since 0001-01-01T00:00:00 UTC, the zero `time.Time`. -/
structure Time where
  nsec : Int
  deriving DecidableEq, Repr

/-- The zero `time.Time`. -/
def Time.zero : Time := ⟨0⟩

/-- Days from 0001-01-01 to the first day of `year` (proleptic Gregorian). -/
def daysBeforeYear (year : Int) : Int :=
  let y := year - 1
  365 * y + y / 4 - y / 100 + y / 400

/-- Leap year test. -/
def isLeap (year : Int) : Bool :=
  year % 4 = 0 ∧ (year % 100 ≠ 0 ∨ year % 400 = 0)

/-- Days in the year before the first day of `month` (1-based). -/
def daysBeforeMonth (year : Int) (month : Nat) : Int :=
  let cum : List Int := [0, 31, 59, 90, 120, 151, 181, 212, 243, 273, 304, 334]
  cum.getD (month - 1) 0 + (if 2 < month ∧ isLeap year then 1 else 0)

/-- The call `time.Date(year, month, day, hour, min, sec, nsec, time.UTC)` for in-range
arguments. -/
def Date (year : Int) (month day hour min sec nsec : Nat) : Time :=
  ⟨(((daysBeforeYear year + daysBeforeMonth year month + ((day : Int) - 1)) * 86400
      + (hour : Int) * 3600 + (min : Int) * 60 + (sec : Int)) * 1000000000) + (nsec : Int)⟩

/-- The method `Time.Add` for a Duration in nanoseconds. -/
def Time.Add (t : Time) (d : Int) : Time := ⟨t.nsec + d⟩

/-- The constant `time.Second`, a Duration in nanoseconds. -/
def Second : Int := 1000000000

/-! ## The runtime: library behaviour the program relies on -/

/-- The map `columnsNeeded` of `tryDynamicSchema`, as its key/value pairs. -/
def columnsNeeded : List (String × String) :=
  [("id", "id"), ("title", "title"), ("pin", "pin"), ("firstCopiedAt", "firstCopiedAt"),
   ("lastCopiedAt", "lastCopiedAt"), ("numberOfCopies", "numberOfCopies"),
   ("application", "application")]

/-- The keys of `columnsNeeded`: the seven canonical field names. -/
def standardNames : List String := columnsNeeded.map Prod.fst

/-- Behaviour of the Go runtime and standard library that the source calls and that is
not part of the repository. -/
structure Runtime where
  /-- The function `strings.EqualFold`. -/
  EqualFold : String → String → Bool
  /-- The order in which the `i`-th `range` over the map `columnsNeeded` visits its keys
  (Go leaves the iteration order of a map unspecified). -/
  rangeOrder : Nat → List String
  /-- Every `range` over the map visits each key once. -/
  rangeOrder_perm : ∀ i, (rangeOrder i).Perm standardNames
  /-- The result of `int64(x)` when `x` is not representable. -/
  int64OutOfRange : F64 → Int
  /-- The call `strconv.FormatFloat(x, 'g', -1, 64)`. -/
  FormatFloat : F64 → String
  /-- The call `strconv.ParseFloat(s, 64)`. -/
  ParseFloat : String → Option F64
  /-- The method `Time.Format(time.RFC3339Nano)`. -/
  FormatTime : Time → String
  /-- The call `fmt.Sprintf("%v", t)` for a `time.Time`. -/
  SprintTime : Time → String
  /-- The conversion `string(b)` of a byte slice read from the store. -/
  stringOfBytes : List Byte → String
  /-- The conversion `[]byte(s)`. -/
  bytesOfString : String → List Byte

/-! ## models.go -/

/-- Content represents the content of a history item. -/
structure Content where
  Type_ : String
  Value : List Byte
  deriving DecidableEq, Repr

/-- HistoryItem represents a clipboard history item. -/
structure HistoryItem where
  ID : Int
  Title : String
  Pin : String
  FirstCopiedAt : Time
  LastCopiedAt : Time
  NumberOfCopies : Int
  Application : String
  Contents : List Content
  deriving DecidableEq, Repr

/-- The type `sql.NullString`. -/
structure NullString where
  String : String
  Valid : Bool
  deriving DecidableEq, Repr

/-- The type `sql.NullFloat64`. -/
structure NullFloat64 where
  Float64 : F64
  Valid : Bool
  deriving DecidableEq, Repr

/-- The type `sql.NullInt64`. -/
structure NullInt64 where
  Int64 : Int
  Valid : Bool
  deriving DecidableEq, Repr

/-- NullableHistoryItem is used for scanning SQL results with potential NULL values. -/
structure NullableHistoryItem where
  ID : Int
  Title : NullString
  Pin : NullString
  FirstCopiedAt : NullFloat64
  LastCopiedAt : NullFloat64
  NumberOfCopies : NullInt64
  Application : NullString
  deriving DecidableEq, Repr

/-- cocoaTimestampToTime converts a Cocoa/Core Data timestamp (seconds since Jan 1, 2001)
to a `Time`. -/
def cocoaTimestampToTime (rt : Runtime) (timestamp : F64) : Time :=
  let referenceDate := Date 2001 1 1 0 0 0 0
  let duration := F64.toInt64 rt.int64OutOfRange (F64.mulInt timestamp Second)
  referenceDate.Add duration

/-- ToHistoryItem converts a NullableHistoryItem to a HistoryItem. -/
def NullableHistoryItem.ToHistoryItem (rt : Runtime) (n : NullableHistoryItem) : HistoryItem :=
  let item : HistoryItem :=
    { ID := n.ID, Title := "", Pin := "", FirstCopiedAt := Time.zero, LastCopiedAt := Time.zero,
      NumberOfCopies := 0, Application := "", Contents := [] }
  let item := if n.Title.Valid then { item with Title := n.Title.String } else item
  let item := if n.Pin.Valid then { item with Pin := n.Pin.String } else item
  let item := if n.FirstCopiedAt.Valid then
    { item with FirstCopiedAt := cocoaTimestampToTime rt n.FirstCopiedAt.Float64 } else item
  let item := if n.LastCopiedAt.Valid then
    { item with LastCopiedAt := cocoaTimestampToTime rt n.LastCopiedAt.Float64 } else item
  let item := if n.NumberOfCopies.Valid then
    { item with NumberOfCopies := n.NumberOfCopies.Int64 } else item
  let item := if n.Application.Valid then
    { item with Application := n.Application.String } else item
  item

/-! ## database/sql -/

/-- A `driver.Value` as the SQLite driver hands it to `database/sql`. -/
inductive Value where
  | null
  | int64 (i : Int)
  | float64 (x : F64)
  | bool (b : Bool)
  | bytes (b : List Byte)
  | string (s : String)
  | time (t : Time)
  deriving DecidableEq, Repr

/-- An open result set (`*sql.Rows`): the outcome of `Columns()` and the rows that
successive `Next()` calls deliver, each with one value per result column. -/
structure Rows where
  Columns : Except String (List String)
  rows : List (List Value)

/-- A statement sent to the store. -/
inductive Call where
  | Query (query : String) (args : List Int)
  | QueryRow (query : String)
  deriving DecidableEq, Repr

/-- The connection `*sql.DB`, read-only: what each statement answers. -/
structure DB where
  /-- The call `db.Query(query, args...)`. -/
  Query : String → List Int → Except String Rows
  /-- The call `db.QueryRow(query).Scan(&b)` for a `bool` destination. -/
  QueryRowBool : String → Except String Bool

/-- Digits of `strconv.ParseUint(s, 10, 64)`, without the range check. -/
def parseDigits : List Char → Nat → Option Nat
  | [], acc => some acc
  | c :: cs, acc => if c.isDigit then parseDigits cs (acc * 10 + (c.toNat - 48)) else none

/-- The call `strconv.ParseInt(s, 10, 64)`; `none` is a syntax or range error. -/
def ParseInt (s : String) : Option Int :=
  let cs := s.toList
  let signed : Bool × List Char :=
    match cs with
    | '+' :: r => (false, r)
    | '-' :: r => (true, r)
    | _ => (false, cs)
  if signed.2 = [] then none
  else
    match parseDigits signed.2 0 with
    | none => none
    | some n =>
        if signed.1 then (if n ≤ 2 ^ 63 then some (-(n : Int)) else none)
        else (if n < 2 ^ 63 then some (n : Int) else none)

/-- The helper `asString` of `database/sql`. -/
def asString (rt : Runtime) : Value → String
  | Value.string s => s
  | Value.bytes b => rt.stringOfBytes b
  | Value.int64 i => toString i
  | Value.float64 x => rt.FormatFloat x
  | Value.bool b => if b then "true" else "false"
  | Value.time t => rt.SprintTime t
  | Value.null => "<nil>"

/-- The assignment `convertAssign(dest, src)` for a destination of type `*int`.  An int64
source goes through `FormatInt` and `ParseInt`, which give the number back. -/
def convertInt (rt : Runtime) (src : Value) : Except String Int :=
  match src with
  | Value.null => Except.error "converting NULL to int is unsupported"
  | Value.int64 i => Except.ok i
  | v =>
      match ParseInt (asString rt v) with
      | some i => Except.ok i
      | none => Except.error ("converting driver.Value to a int: " ++ asString rt v)

/-- The assignment `convertAssign(dest, src)` for a destination of type `*int64` and a
non-NULL source. -/
def convertInt64 (rt : Runtime) (src : Value) : Except String Int :=
  match src with
  | Value.int64 i => Except.ok i
  | v =>
      match ParseInt (asString rt v) with
      | some i => Except.ok i
      | none => Except.error ("converting driver.Value to a int64: " ++ asString rt v)

/-- The assignment `convertAssign(dest, src)` for a destination of type `*float64` and a
non-NULL source. -/
def convertFloat64 (rt : Runtime) (src : Value) : Except String F64 :=
  match src with
  | Value.float64 x => Except.ok x
  | v =>
      match rt.ParseFloat (asString rt v) with
      | some x => Except.ok x
      | none => Except.error ("converting driver.Value to a float64: " ++ asString rt v)

/-- The assignment `convertAssign(dest, src)` for a destination of type `*string`. -/
def convertString (rt : Runtime) (src : Value) : Except String String :=
  match src with
  | Value.null => Except.error "converting NULL to string is unsupported"
  | Value.time t => Except.ok (rt.FormatTime t)
  | v => Except.ok (asString rt v)

/-- The assignment `convertAssign(dest, src)` for a destination of type `*[]byte`. -/
def convertBytes (rt : Runtime) (src : Value) : Except String (List Byte) :=
  match src with
  | Value.null => Except.ok []
  | Value.bytes b => Except.ok b
  | Value.time t => Except.ok (rt.bytesOfString (rt.FormatTime t))
  | v => Except.ok (rt.bytesOfString (asString rt v))

/-- The method `Scan` of `sql.NullString`. -/
def scanNullString (rt : Runtime) (value : Value) : Except String NullString :=
  match value with
  | Value.null => Except.ok { String := "", Valid := false }
  | v => (convertString rt v).map (fun s => { String := s, Valid := true })

/-- The method `Scan` of `sql.NullFloat64`. -/
def scanNullFloat64 (rt : Runtime) (value : Value) : Except String NullFloat64 :=
  match value with
  | Value.null => Except.ok { Float64 := F64.finite 0 0, Valid := false }
  | v => (convertFloat64 rt v).map (fun x => { Float64 := x, Valid := true })

/-- The method `Scan` of `sql.NullInt64`. -/
def scanNullInt64 (rt : Runtime) (value : Value) : Except String NullInt64 :=
  match value with
  | Value.null => Except.ok { Int64 := 0, Valid := false }
  | v => (convertInt64 rt v).map (fun i => { Int64 := i, Valid := true })

/-- The call `rows.Scan(...)` of `scanHistoryItems`, with its seven destinations
`&nullableItem.ID`, `.Title`, `.Pin`, `.FirstCopiedAt`, `.LastCopiedAt`, `.NumberOfCopies`,
`.Application`, on the current row.  `database/sql` refuses a row whose number of columns
is not the number of destinations, and otherwise assigns column `i` to destination `i`.  The
error of a failed conversion is the conversion error itself, without the prefix
`sql: Scan error on column index i, name "q": ` that `Rows.Scan` puts before it. -/
def scanNullableHistoryItem (rt : Runtime) (row : List Value) :
    Except String NullableHistoryItem :=
  match row with
  | [c0, c1, c2, c3, c4, c5, c6] =>
      match convertInt rt c0 with
      | Except.error e => Except.error e
      | Except.ok id =>
      match scanNullString rt c1 with
      | Except.error e => Except.error e
      | Except.ok title =>
      match scanNullString rt c2 with
      | Except.error e => Except.error e
      | Except.ok pin =>
      match scanNullFloat64 rt c3 with
      | Except.error e => Except.error e
      | Except.ok first =>
      match scanNullFloat64 rt c4 with
      | Except.error e => Except.error e
      | Except.ok last =>
      match scanNullInt64 rt c5 with
      | Except.error e => Except.error e
      | Except.ok copies =>
      match scanNullString rt c6 with
      | Except.error e => Except.error e
      | Except.ok app =>
          Except.ok { ID := id, Title := title, Pin := pin, FirstCopiedAt := first,
                      LastCopiedAt := last, NumberOfCopies := copies, Application := app }
  | _ =>
      Except.error
        ("sql: expected " ++ toString row.length ++ " destination arguments in Scan, not 7")

/-- The call `contentRows.Scan(&contentType, &contentValue)` of `GetItemContents`.  The error
of a failed conversion is the conversion error itself, without the prefix
`sql: Scan error on column index i, name "q": ` that `Rows.Scan` puts before it. -/
def scanContent (rt : Runtime) (row : List Value) : Except String Content :=
  match row with
  | [c0, c1] =>
      match convertString rt c0 with
      | Except.error e => Except.error e
      | Except.ok contentType =>
      match convertBytes rt c1 with
      | Except.error e => Except.error e
      | Except.ok contentValue => Except.ok { Type_ := contentType, Value := contentValue }
  | _ =>
      Except.error
        ("sql: expected " ++ toString row.length ++ " destination arguments in Scan, not 2")

/-! ## repository.go -/

/-- Outcome of a repository call: the Go result pair and the statements issued. -/
abbrev Outcome (α : Type) := Except String α × List Call

/-- The primary-layout statement of `GetItemContents`. -/
def contentQueryStandard : String :=
  "\n\t\tSELECT type, value\n\t\tFROM HistoryItemContent\n\t\tWHERE item_id = ?\n\t"

/-- The alternate-layout statement of `GetItemContents`. -/
def contentQueryAlternative : String :=
  "\n\t\t\tSELECT ZTYPE, ZVALUE\n\t\t\tFROM ZHISTORYITEMCONTENT\n\t\t\tWHERE ZITEM = ?\n\t\t"

/-- The loop `for contentRows.Next()` of `GetItemContents`: a row that fails to scan ends
the call with that error. -/
def scanContents (rt : Runtime) : List (List Value) → List Content → Except String (List Content)
  | [], contents => Except.ok contents
  | row :: rest, contents =>
      match scanContent rt row with
      | Except.error err => Except.error err
      | Except.ok content => scanContents rt rest (contents ++ [content])

/-- GetItemContents retrieves contents for a specific history item. -/
def GetItemContents (rt : Runtime) (db : DB) (itemID : Int) : Outcome (List Content) :=
  match db.Query contentQueryStandard [itemID] with
  | Except.ok contentRows =>
      (scanContents rt contentRows.rows [], [Call.Query contentQueryStandard [itemID]])
  | Except.error _ =>
      match db.Query contentQueryAlternative [itemID] with
      | Except.error err =>
          (Except.error err,
            [Call.Query contentQueryStandard [itemID], Call.Query contentQueryAlternative [itemID]])
      | Except.ok contentRows =>
          (scanContents rt contentRows.rows [],
            [Call.Query contentQueryStandard [itemID], Call.Query contentQueryAlternative [itemID]])

/-- The loop `for rows.Next()` of `scanHistoryItems`, with the slice `items` built so far
and the statements issued so far. -/
def scanHistoryLoop (rt : Runtime) (db : DB) :
    List (List Value) → List HistoryItem → List Call → List HistoryItem × List Call
  | [], items, calls => (items, calls)
  | row :: rest, items, calls =>
      match scanNullableHistoryItem rt row with
      | Except.error _ => scanHistoryLoop rt db rest items calls
      | Except.ok nullableItem =>
          let item := nullableItem.ToHistoryItem rt
          let got := GetItemContents rt db item.ID
          let item :=
            match got.1 with
            | Except.error _ => item
            | Except.ok contents => { item with Contents := contents }
          scanHistoryLoop rt db rest (items ++ [item]) (calls ++ got.2)

/-- The method `scanHistoryItems`. -/
def scanHistoryItems (rt : Runtime) (db : DB) (rows : Rows) : Outcome (List HistoryItem) :=
  let done := scanHistoryLoop rt db rows.rows [] []
  (Except.ok done.1, done.2)

/-- The clause `fmt.Sprintf(" LIMIT %d", limit)` appended when `limit > 0`. -/
def withLimit (query : String) (limit : Int) : String :=
  if 0 < limit then query ++ " LIMIT " ++ toString limit else query

/-- The statement of `tryStandardSchema`. -/
def standardQuery (limit : Int) : String :=
  withLimit
    ("\n\t\tSELECT id, title, pin, firstCopiedAt, lastCopiedAt, numberOfCopies, application" ++
     "\n\t\tFROM HistoryItem\n\t\tORDER BY lastCopiedAt DESC\n\t") limit

/-- The statement of `tryAlternativeSchema`. -/
def alternativeQuery (limit : Int) : String :=
  withLimit
    ("\n\t\tSELECT Z_PK, ZTITLE, ZPIN, ZFIRSTCOPIEDAT, ZLASTCOPIEDAT, ZNUMBEROFCOPIES, ZAPPLICATION" ++
     "\n\t\tFROM ZHISTORYITEM\n\t\tORDER BY ZLASTCOPIEDAT DESC\n\t") limit

/-- The method `tryStandardSchema`. -/
def tryStandardSchema (rt : Runtime) (db : DB) (limit : Int) : Outcome (List HistoryItem) :=
  let query := standardQuery limit
  match db.Query query [] with
  | Except.error err => (Except.error err, [Call.Query query []])
  | Except.ok rows =>
      let res := scanHistoryItems rt db rows
      (res.1, Call.Query query [] :: res.2)

/-- The method `tryAlternativeSchema`. -/
def tryAlternativeSchema (rt : Runtime) (db : DB) (limit : Int) : Outcome (List HistoryItem) :=
  let query := alternativeQuery limit
  match db.Query query [] with
  | Except.error err => (Except.error err, [Call.Query query []])
  | Except.ok rows =>
      let res := scanHistoryItems rt db rows
      (res.1, Call.Query query [] :: res.2)

/-- The statement of `tryDynamicSchema` that checks whether the table exists. -/
def tableExistsQuery : String :=
  "\n\t\tSELECT COUNT(*) > 0 FROM sqlite_master\n\t\tWHERE type='table' AND name='HistoryItem'\n\t"

/-- The statement of `tryDynamicSchema` that probes the column names. -/
def probeQuery : String := "SELECT * FROM HistoryItem LIMIT 1"

/-- The inner loop of `tryDynamicSchema`, `for standardName := range columnsNeeded`, over
the keys still to visit: the first key that matches appends `col` and breaks. -/
def matchColumn (rt : Runtime) (col : String) : List String → List String → List String
  | [], selectCols => selectCols
  | standardName :: rest, selectCols =>
      if rt.EqualFold col standardName || rt.EqualFold col ("Z" ++ standardName) then
        selectCols ++ [col]
      else matchColumn rt col rest selectCols

/-- The outer loop of `tryDynamicSchema`, `for _, col := range cols`; `i` counts the
executions of the inner `range`. -/
def selectColsLoop (rt : Runtime) : List String → Nat → List String → List String
  | [], _, selectCols => selectCols
  | col :: rest, i, selectCols =>
      selectColsLoop rt rest (i + 1) (matchColumn rt col (rt.rangeOrder i) selectCols)

/-- The statement that `tryDynamicSchema` builds from the columns it selected. -/
def dynamicQuery (selectCols : List String) (limit : Int) : String :=
  withLimit
    ("\n\t\tSELECT " ++ ", ".intercalate selectCols ++
     "\n\t\tFROM HistoryItem\n\t\tORDER BY lastCopiedAt DESC, firstCopiedAt DESC\n\t") limit

/-- The method `tryDynamicSchema`. -/
def tryDynamicSchema (rt : Runtime) (db : DB) (limit : Int) : Outcome (List HistoryItem) :=
  match db.QueryRowBool tableExistsQuery with
  | Except.error err =>
      (Except.error ("error checking for HistoryItem table: " ++ err),
        [Call.QueryRow tableExistsQuery])
  | Except.ok tableExists =>
      if !tableExists then
        (Except.error "HistoryItem table not found in database", [Call.QueryRow tableExistsQuery])
      else
        match db.Query probeQuery [] with
        | Except.error err =>
            (Except.error err, [Call.QueryRow tableExistsQuery, Call.Query probeQuery []])
        | Except.ok rows =>
            match rows.Columns with
            | Except.error err =>
                (Except.error err, [Call.QueryRow tableExistsQuery, Call.Query probeQuery []])
            | Except.ok cols =>
                let selectCols := selectColsLoop rt cols 0 []
                if selectCols.length = 0 then
                  (Except.error "couldn't identify required columns in HistoryItem table",
                    [Call.QueryRow tableExistsQuery, Call.Query probeQuery []])
                else
                  let query := dynamicQuery selectCols limit
                  match db.Query query [] with
                  | Except.error err =>
                      (Except.error err,
                        [Call.QueryRow tableExistsQuery, Call.Query probeQuery [],
                         Call.Query query []])
                  | Except.ok rows =>
                      let res := scanHistoryItems rt db rows
                      (res.1,
                        [Call.QueryRow tableExistsQuery, Call.Query probeQuery [],
                         Call.Query query []] ++ res.2)

/-- GetRecentItems retrieves the most recent history items. -/
def GetRecentItems (rt : Runtime) (db : DB) (limit : Int) : Outcome (List HistoryItem) :=
  let std := tryStandardSchema rt db limit
  match std.1 with
  | Except.ok items => (Except.ok items, std.2)
  | Except.error _ =>
      let alt := tryAlternativeSchema rt db limit
      match alt.1 with
      | Except.ok items => (Except.ok items, std.2 ++ alt.2)
      | Except.error _ =>
          let dyn := tryDynamicSchema rt db limit
          (dyn.1, std.2 ++ alt.2 ++ dyn.2)

/-- GetAllItems retrieves all history items. -/
def GetAllItems (rt : Runtime) (db : DB) : Outcome (List HistoryItem) :=
  let std := tryStandardSchema rt db 0
  match std.1 with
  | Except.ok items => (Except.ok items, std.2)
  | Except.error _ =>
      let alt := tryAlternativeSchema rt db 0
      match alt.1 with
      | Except.ok items => (Except.ok items, std.2 ++ alt.2)
      | Except.error _ =>
          let dyn := tryDynamicSchema rt db 0
          (dyn.1, std.2 ++ alt.2 ++ dyn.2)

/-! ## printer.go -/

/-- The method `Time.IsZero`. -/
def Time.IsZero (t : Time) : Bool := t.nsec = 0

/-- The calendar date (year, month, day) of the day that lies `days` days after 0001-01-01,
in the proleptic Gregorian calendar, as the `time` package computes it. -/
def civilDate (days : Int) : Int × Int × Int :=
  let z := days + 306
  let era := z / 146097
  let doe := z - era * 146097
  let yoe := (doe - doe / 1460 + doe / 36524 - doe / 146096) / 365
  let y := yoe + era * 400
  let doy := doe - (365 * yoe + yoe / 4 - yoe / 100)
  let mp := (5 * doy + 2) / 153
  let d := doy - (153 * mp + 2) / 5 + 1
  let m := if mp < 10 then mp + 3 else mp - 9
  (if m ≤ 2 then y + 1 else y, m, d)

/-- Seconds since 0001-01-01T00:00:00 on the wall clock of a location that is `offset`
seconds east of UTC at the instant `t`. -/
def Time.wallSeconds (t : Time) (offset : Int) : Int := t.nsec / 1000000000 + offset

/-- The method `Time.Year`, for a value whose location is `offset` seconds east of UTC at
that instant.  The values that the repository builds are in UTC (`offset = 0`). -/
def Time.Year (t : Time) (offset : Int) : Int := (civilDate (t.wallSeconds offset / 86400)).1

/-- The method `Time.Month`. -/
def Time.Month (t : Time) (offset : Int) : Int := (civilDate (t.wallSeconds offset / 86400)).2.1

/-- The method `Time.Day`. -/
def Time.Day (t : Time) (offset : Int) : Int := (civilDate (t.wallSeconds offset / 86400)).2.2

/-- A decimal digit. -/
def digitChar (n : Nat) : Char := Char.ofNat (48 + n % 10)

/-- A two-digit field of `Time.Format`. -/
def pad2 (n : Int) : List Char := [digitChar (n.toNat / 10), digitChar n.toNat]

/-- The year field of `Time.Format`: a sign for a negative year, then at least four digits. -/
def padYear (year : Int) : List Char :=
  let digits := Nat.toDigits 10 year.natAbs
  (if year < 0 then ['-'] else []) ++ List.replicate (4 - digits.length) '0' ++ digits

/-- The call `Time.Format("2006-01-02 15:04:05")`, for a value whose location is `offset`
seconds east of UTC at that instant. -/
def Time.Format (t : Time) (offset : Int) : String :=
  let date := civilDate (t.wallSeconds offset / 86400)
  let clock := t.wallSeconds offset % 86400
  String.mk (padYear date.1 ++ ['-'] ++ pad2 date.2.1 ++ ['-'] ++ pad2 date.2.2 ++ [' '] ++
    pad2 (clock / 3600) ++ [':'] ++ pad2 (clock % 3600 / 60) ++ [':'] ++ pad2 (clock % 60))

/-- The function `formatTime`.  `offset` is the offset from UTC of the location of `t`, and
`Local` gives the offset of the zone `time.Local` at an instant, so that `t.Local()` is `t`
with the offset `Local t`. -/
def formatTime (Local : Time → Int) (t : Time) (offset : Int) : String :=
  if t.IsZero then "<never>"
  else if t.Year offset = 1970 ∧ t.Month offset = 1 ∧ t.Day offset = 1 then "<never>"
  else t.Format (Local t)

/-! ## UTF-8 -/

/-- The UTF-8 encoding of a code point. -/
def encodeNat (v : Nat) : List Byte :=
  if v < 128 then [Fin.ofNat v]
  else if v < 2048 then [Fin.ofNat (192 + v / 64), Fin.ofNat (128 + v % 64)]
  else if v < 65536 then
    [Fin.ofNat (224 + v / 4096), Fin.ofNat (128 + v / 64 % 64), Fin.ofNat (128 + v % 64)]
  else
    [Fin.ofNat (240 + v / 262144), Fin.ofNat (128 + v / 4096 % 64),
     Fin.ofNat (128 + v / 64 % 64), Fin.ofNat (128 + v % 64)]

/-- The UTF-8 encoding of a character. -/
def encodeRune (c : Char) : List Byte := encodeNat c.toNat

/-- The bytes of a string: the UTF-8 encoding of its characters. -/
def utf8Bytes (s : String) : List Byte := (s.toList.map encodeRune).flatten

/-- A continuation byte, `0x80` to `0xBF`. -/
def isCont (b : Byte) : Prop := 128 ≤ b.val ∧ b.val < 192

instance (b : Byte) : Decidable (isCont b) := by
  unfold isCont
  infer_instance

/-- The code point of a two-byte sequence, if the sequence is valid UTF-8. -/
def rune2 (b0 b1 : Byte) : Option Nat :=
  if 194 ≤ b0.val ∧ b0.val < 224 ∧ isCont b1 then some ((b0.val - 192) * 64 + (b1.val - 128))
  else none

/-- The code point of a three-byte sequence, if the sequence is valid UTF-8 (not overlong,
not a surrogate). -/
def rune3 (b0 b1 b2 : Byte) : Option Nat :=
  let v := (b0.val - 224) * 4096 + (b1.val - 128) * 64 + (b2.val - 128)
  if 224 ≤ b0.val ∧ b0.val < 240 ∧ isCont b1 ∧ isCont b2 ∧ 2048 ≤ v ∧ (v < 55296 ∨ 57344 ≤ v)
  then some v else none

/-- The code point of a four-byte sequence, if the sequence is valid UTF-8 (not overlong,
at most U+10FFFF). -/
def rune4 (b0 b1 b2 b3 : Byte) : Option Nat :=
  let v := (b0.val - 240) * 262144 + (b1.val - 128) * 4096 + (b2.val - 128) * 64 + (b3.val - 128)
  if 240 ≤ b0.val ∧ b0.val < 245 ∧ isCont b1 ∧ isCont b2 ∧ isCont b3 ∧ 65536 ≤ v ∧ v < 1114112
  then some v else none

/-- The first rune of the byte sequence `b0 :: rest` and the number of bytes it takes, as
`utf8.DecodeRune` gives them: a byte that does not start a valid sequence gives U+FFFD and
takes one byte. -/
def decodeRune (b0 : Byte) (rest : List Byte) : Char × Nat :=
  if b0.val < 128 then (Char.ofNat b0.val, 1)
  else
    match rest with
    | [] => (Char.ofNat 65533, 1)
    | b1 :: rest1 =>
        match rune2 b0 b1 with
        | some v => (Char.ofNat v, 2)
        | none =>
            match rest1 with
            | [] => (Char.ofNat 65533, 1)
            | b2 :: rest2 =>
                match rune3 b0 b1 b2 with
                | some v => (Char.ofNat v, 3)
                | none =>
                    match rest2 with
                    | [] => (Char.ofNat 65533, 1)
                    | b3 :: _ =>
                        match rune4 b0 b1 b2 b3 with
                        | some v => (Char.ofNat v, 4)
                        | none => (Char.ofNat 65533, 1)

/-- The runes of a byte sequence, at most `fuel` of them. -/
def decodeRunes : Nat → List Byte → List Char
  | 0, _ => []
  | _ + 1, [] => []
  | fuel + 1, b0 :: rest =>
      (decodeRune b0 rest).1 :: decodeRunes fuel ((b0 :: rest).drop (decodeRune b0 rest).2)

/-- The string that a byte sequence reads as in UTF-8, each byte that does not start a valid
sequence replaced by U+FFFD.  Every rune takes at least one byte, so the number of bytes is
fuel enough. -/
def utf8Lossy (b : List Byte) : String := String.mk (decodeRunes b.length b)

/-! ## encoding/base64 and Content.MarshalJSON -/

/-- The alphabet `encodeStd` of `encoding/base64`. -/
def encodeStd : List Char :=
  "ABCDEFGHIJKLMNOPQRSTUVWXYZabcdefghijklmnopqrstuvwxyz0123456789+/".toList

/-- The character of a six-bit group. -/
def encodeChar (i : Nat) : Char := encodeStd.getD i 'A'

/-- The body of `base64.StdEncoding.Encode`: three bytes give four characters, and a last
group of one or two bytes is padded with `=`. -/
def encodeList : List Byte → List Char
  | a :: b :: c :: rest =>
      let val := a.val * 65536 + b.val * 256 + c.val
      encodeChar (val / 262144 % 64) :: encodeChar (val / 4096 % 64) ::
        encodeChar (val / 64 % 64) :: encodeChar (val % 64) :: encodeList rest
  | [a, b] =>
      let val := a.val * 65536 + b.val * 256
      [encodeChar (val / 262144 % 64), encodeChar (val / 4096 % 64),
       encodeChar (val / 64 % 64), '=']
  | [a] =>
      let val := a.val * 65536
      [encodeChar (val / 262144 % 64), encodeChar (val / 4096 % 64), '=', '=']
  | [] => []

/-- The call `base64.StdEncoding.EncodeToString(src)`. -/
def EncodeToString (src : List Byte) : String := String.mk (encodeList src)

/-- The six-bit group of a character of the alphabet. -/
def decodeChar (c : Char) : Option Nat :=
  if encodeStd.indexOf c < 64 then some (encodeStd.indexOf c) else none

/-- Standard base64 decoding (RFC 4648, with padding) of a list of characters: the inverse
that the statement about `MarshalJSON` refers to; the repository has no decoder. -/
def decodeList : List Char → Option (List Byte)
  | [] => some []
  | c0 :: c1 :: c2 :: c3 :: rest =>
      if c3 = '=' then
        if rest ≠ [] then none
        else if c2 = '=' then
          match decodeChar c0, decodeChar c1 with
          | some i0, some i1 => some [Fin.ofNat (i0 * 4 + i1 / 16)]
          | _, _ => none
        else
          match decodeChar c0, decodeChar c1, decodeChar c2 with
          | some i0, some i1, some i2 =>
              some [Fin.ofNat (i0 * 4 + i1 / 16), Fin.ofNat (i1 % 16 * 16 + i2 / 4)]
          | _, _, _ => none
      else
        match decodeChar c0, decodeChar c1, decodeChar c2, decodeChar c3, decodeList rest with
        | some i0, some i1, some i2, some i3, some bs =>
            some (Fin.ofNat (i0 * 4 + i1 / 16) :: Fin.ofNat (i1 % 16 * 16 + i2 / 4) ::
              Fin.ofNat (i2 % 4 * 64 + i3) :: bs)
        | _, _, _, _, _ => none
  | _ => none

/-- Standard base64 decoding of a string. -/
def DecodeString (s : String) : Option (List Byte) := decodeList s.toList

/-- The local type `ContentAlias` of `MarshalJSON`; each Go string is given by its bytes. -/
structure ContentAlias where
  Type_ : List Byte
  Value : List Byte
  deriving DecidableEq, Repr

/-- The call `json.Marshal` on a `ContentAlias`: the JSON object that it emits, given by its
members in order, each a name (from the `json` tag of the field) and the string that the
emitted literal denotes.  `encoding/json` writes a Go string coerced to valid UTF-8, every
invalid byte replaced by U+FFFD; the escapes with which it writes the literal (quotes,
control characters, `<`, `>`, `&`) do not change the string denoted. -/
def jsonMarshal (a : ContentAlias) : Except String (List (String × String)) :=
  Except.ok [("type", utf8Lossy a.Type_), ("value", utf8Lossy a.Value)]

/-- MarshalJSON customizes JSON marshaling for Content.  The conversion `string(c.Value)`
keeps the bytes of the payload. -/
def Content.MarshalJSON (c : Content) : Except String (List (String × String)) :=
  let valueStr : List Byte :=
    if c.Type_ = "public.utf8-plain-text" then c.Value
    else utf8Bytes (EncodeToString c.Value)
  jsonMarshal { Type_ := utf8Bytes c.Type_, Value := valueStr }

/-! ## Vocabulary of the statements -/

/-- The magnitude that rounding to 53 significant bits (to nearest, ties to even) gives for
the magnitude `n`: the value of `F64.round53` without its sign and exponent. -/
def roundNat (n : Nat) : Nat :=
  if n < 2 ^ 53 then n
  else
    (if 2 ^ (Nat.log2 n - 52 - 1) < n % 2 ^ (Nat.log2 n - 52) ∨
        (n % 2 ^ (Nat.log2 n - 52) = 2 ^ (Nat.log2 n - 52 - 1) ∧
          n / 2 ^ (Nat.log2 n - 52) % 2 = 1)
      then n / 2 ^ (Nat.log2 n - 52) + 1 else n / 2 ^ (Nat.log2 n - 52)) * 2 ^ (Nat.log2 n - 52)

/-- The rational number `m * 2 ^ e` that the finite float64 `F64.finite m e` stands for. -/
def dyadic (m e : Int) : ℚ := (m : ℚ) * (2 : ℚ) ^ e

/-- The test of `tryDynamicSchema` for a discovered column and a canonical field name: equal
ignoring case to the name or to the name prefixed with "Z". -/
def matchesField (rt : Runtime) (col name : String) : Bool :=
  rt.EqualFold col name || rt.EqualFold col ("Z" ++ name)

/-- The record that one iteration of the loop of `scanHistoryItems` appends for a row scanned
into `n`: the promoted item, with the contents of its id when `GetItemContents` returns
them. -/
def itemOf (rt : Runtime) (db : DB) (n : NullableHistoryItem) : HistoryItem :=
  match (GetItemContents rt db (n.ToHistoryItem rt).ID).1 with
  | Except.error _ => n.ToHistoryItem rt
  | Except.ok contents => { n.ToHistoryItem rt with Contents := contents }

/-- The record of a row, when the row scans. -/
def scannedItem (rt : Runtime) (db : DB) (row : List Value) : Option HistoryItem :=
  match scanNullableHistoryItem rt row with
  | Except.error _ => none
  | Except.ok n => some (itemOf rt db n)

/-- A statement of `GetItemContents`: one of its two texts, with the item id as its only
argument. -/
def Call.isContent : Call → Bool
  | Call.Query q args =>
      (q = contentQueryStandard || q = contentQueryAlternative) && args.length = 1
  | Call.QueryRow _ => false

/-- A stored `HistoryItem` table: the declared column names, in declaration order, and the
rows, each with one value per declared column, listed in the order in which the store returns
them for `ORDER BY lastCopiedAt DESC, firstCopiedAt DESC`. -/
structure Table where
  cols : List String
  rows : List (List Value)

/-- The value that a stored row holds in the column named `col`. -/
def Table.value (t : Table) (row : List Value) (col : String) : Value :=
  row.getD (t.cols.indexOf col) Value.null

/-- The row that a `SELECT` of the columns `sel` returns for a stored row. -/
def Table.project (t : Table) (sel : List String) (row : List Value) : List Value :=
  sel.map (t.value row)

/-- The columns that dynamic discovery matches, as the claims describe them: the declared
columns that match some canonical field name. -/
def discovered (rt : Runtime) (cols : List String) : List String :=
  cols.filter (fun col => standardNames.any (matchesField rt col))

/-- The discovered column that matches the field `name`: the first one, if any. -/
def discoveredColumn (rt : Runtime) (cols : List String) (name : String) : Option String :=
  (discovered rt cols).find? (fun col => matchesField rt col name)

/-- The value that a stored row holds in an optional column, NULL when there is none. -/
def Table.valueAt (t : Table) (row : List Value) : Option String → Value
  | some col => t.value row col
  | none => Value.null

/-- The value that a stored row holds for a field: the one in the discovered column that
matches the field name. -/
def Table.fieldValue (rt : Runtime) (t : Table) (row : List Value) (name : String) : Value :=
  t.valueAt row (discoveredColumn rt t.cols name)

/-- The record of a stored row read by field name: each of id, title, pin, firstCopiedAt,
lastCopiedAt, numberOfCopies and application is decoded from the value stored in the
discovered column that matches its name. -/
def Table.recordByName (rt : Runtime) (db : DB) (t : Table) (row : List Value) :
    Option HistoryItem :=
  scannedItem rt db (standardNames.map (t.fieldValue rt row))

/-- A store readable only through dynamic discovery: both fixed-layout statements of
`GetAllItems` fail, the `HistoryItem` table exists, the probe reports its declared columns,
and the statement that selects the discovered columns returns those columns of every row. -/
structure DynamicOnly (rt : Runtime) (db : DB) (t : Table) : Prop where
  standard_fails : ∃ e, db.Query (standardQuery 0) [] = Except.error e
  alternative_fails : ∃ e, db.Query (alternativeQuery 0) [] = Except.error e
  table_exists : db.QueryRowBool tableExistsQuery = Except.ok true
  probe : ∃ rows, db.Query probeQuery [] = Except.ok rows ∧ rows.Columns = Except.ok t.cols
  select : ∃ rows, db.Query (dynamicQuery (discovered rt t.cols) 0) [] = Except.ok rows ∧
    rows.rows = t.rows.map (t.project (discovered rt t.cols))

/-- The text with which a table in the standard layout is read, most recent first. -/
def standardSelect : String :=
  "\n\t\tSELECT id, title, pin, firstCopiedAt, lastCopiedAt, numberOfCopies, application\n\t\tFROM HistoryItem\n\t\tORDER BY lastCopiedAt DESC\n\t"

/-- The text with which a table in the alternative layout is read, most recent first. -/
def alternativeSelect : String :=
  "\n\t\tSELECT Z_PK, ZTITLE, ZPIN, ZFIRSTCOPIEDAT, ZLASTCOPIEDAT, ZNUMBEROFCOPIES, ZAPPLICATION\n\t\tFROM ZHISTORYITEM\n\t\tORDER BY ZLASTCOPIEDAT DESC\n\t"

/-- The answers of a store that holds a table in the layout that `select` reads, `stored`
being the rows of the table as the seven selected columns, by descending stored lastCopiedAt:
the statement `select` returns them all, and `select` followed by ` LIMIT k` returns the
first `k` of them. -/
def Serves (db : DB) (select : String) (stored : List (List Value)) (k : Nat) : Prop :=
  (∃ rows, db.Query select [] = Except.ok rows ∧ rows.rows = stored) ∧
  (∃ rows, db.Query (select ++ " LIMIT " ++ toString k) [] = Except.ok rows ∧
    rows.rows = stored.take k)

/-- The answers of a store that has no table in the layout that `select` reads: the statement
fails, with and without ` LIMIT k`. -/
def Refuses (db : DB) (select : String) (k : Nat) : Prop :=
  (∃ e, db.Query select [] = Except.error e) ∧
  (∃ e, db.Query (select ++ " LIMIT " ++ toString k) [] = Except.error e)

/-- A store in a recognized layout: it holds the rows `stored` in the standard layout, or it
has no table in the standard layout and holds them in the alternative layout. -/
def RecognizedLayout (db : DB) (stored : List (List Value)) (k : Nat) : Prop :=
  Serves db standardSelect stored k ∨
  (Refuses db standardSelect k ∧ Serves db alternativeSelect stored k)

/-- The stored lastCopiedAt of a row of the seven selected columns: the fifth column. -/
def storedLast (row : List Value) : Value := row.getD 4 Value.null

/-- The order of two stored values under `ORDER BY ... DESC`, for NULL and float64 values:
`v` may come before `w` when `w` is NULL, which sorts below every number, or when both are
numbers and `w` is not the larger. -/
def sortsBefore (v w : Value) : Prop :=
  match v, w with
  | _, Value.null => True
  | Value.float64 (F64.finite m e), Value.float64 (F64.finite m1 e1) => dyadic m1 e1 ≤ dyadic m e
  | _, _ => False

/-- A stored lastCopiedAt that is NULL or a finite float64 whose product with `time.Second`
has a magnitude of at most `2 ^ 63 - 1025` nanoseconds. -/
def inRangeLast (v : Value) : Prop :=
  v = Value.null ∨
  ∃ m e : Int, v = Value.float64 (F64.finite m e) ∧ |dyadic (m * Second) e| ≤ 2 ^ 63 - 1025

/-- Descending order of two records by lastCopiedAt. -/
def lastCopiedDesc (a b : HistoryItem) : Prop := b.LastCopiedAt.nsec ≤ a.LastCopiedAt.nsec

/-! ## Concrete stores and a concrete runtime, for the examples -/

/-- Lower-case form of an ASCII letter. -/
def asciiLower (c : Char) : Char :=
  if 65 ≤ c.toNat ∧ c.toNat ≤ 90 then Char.ofNat (c.toNat + 32) else c

/-- The function `strings.EqualFold` on ASCII strings, where it compares letters without
regard to case.  The examples apply it to ASCII names only. -/
def asciiEqualFold (s t : String) : Bool :=
  s.toList.map asciiLower = t.toList.map asciiLower

/-- A runtime for the examples: ASCII names, the map visited in source order, the amd64
result of an out-of-range `int64(x)`, byte slices read as UTF-8.  The examples hold no value
that needs the float and time formatting functions, which are left trivial here. -/
def sampleRuntime : Runtime where
  EqualFold := asciiEqualFold
  rangeOrder := fun _ => standardNames
  rangeOrder_perm := fun _ => List.Perm.refl _
  int64OutOfRange := fun _ => -2 ^ 63
  FormatFloat := fun _ => ""
  ParseFloat := fun _ => none
  FormatTime := fun _ => ""
  SprintTime := fun _ => ""
  stringOfBytes := utf8Lossy
  bytesOfString := utf8Bytes

/-- A store in the alternative layout that holds no record. -/
def emptyAlternativeStore : DB where
  Query := fun q _ =>
    if q = alternativeQuery 0 then
      Except.ok { Columns := Except.ok ["Z_PK", "ZTITLE", "ZPIN", "ZFIRSTCOPIEDAT",
                    "ZLASTCOPIEDAT", "ZNUMBEROFCOPIES", "ZAPPLICATION"], rows := [] }
    else Except.error "no such table"
  QueryRowBool := fun _ => Except.ok false

/-- A store whose only table, `HistoryItem`, has the columns `foo` and `bar`. -/
def foreignStore : DB where
  Query := fun q _ =>
    if q = probeQuery then Except.ok { Columns := Except.ok ["foo", "bar"], rows := [] }
    else Except.error "no such column"
  QueryRowBool := fun _ => Except.ok true

/-- A result set of three rows with ids 1, 2 and 3, every other column NULL. -/
def threeRows : Rows where
  Columns := Except.ok ["id", "title", "pin", "firstCopiedAt", "lastCopiedAt",
    "numberOfCopies", "application"]
  rows := [1, 2, 3].map (fun i =>
    [Value.int64 i, Value.null, Value.null, Value.null, Value.null, Value.null, Value.null])

/-- The rows of `threeRows` as scanned. -/
def threeScanned : List NullableHistoryItem :=
  [1, 2, 3].map (fun i =>
    { ID := i, Title := { String := "", Valid := false }, Pin := { String := "", Valid := false },
      FirstCopiedAt := { Float64 := F64.finite 0 0, Valid := false },
      LastCopiedAt := { Float64 := F64.finite 0 0, Valid := false },
      NumberOfCopies := { Int64 := 0, Valid := false },
      Application := { String := "", Valid := false } })

/-- A store whose content table answers for every item but item 2: items 1 and 3 have one
text block each. -/
def oneContentFailureStore : DB where
  Query := fun q args =>
    if q = contentQueryStandard ∧ args ≠ [2] then
      Except.ok { Columns := Except.ok ["type", "value"],
                  rows := [[Value.string "public.utf8-plain-text", Value.bytes [104, 105]]] }
    else Except.error "database disk image is malformed"
  QueryRowBool := fun _ => Except.ok true

/-- A store whose primary content table holds, for item 7, one block with a NULL type. -/
def nullTypeStore : DB where
  Query := fun q args =>
    if q = contentQueryStandard ∧ args = [7] then
      Except.ok { Columns := Except.ok ["type", "value"],
                  rows := [[Value.null, Value.bytes [104, 105]]] }
    else Except.error "no such table"
  QueryRowBool := fun _ => Except.ok false

/-- A content block of a binary type. -/
def pngContent : Content := { Type_ := "public.png", Value := [0, 255, 16] }

/-- A text block whose payload is the UTF-8 text "hi". -/
def hiContent : Content := { Type_ := "public.utf8-plain-text", Value := [104, 105] }

/-- A text block whose payload starts with the byte 0xff, which no UTF-8 text contains. -/
def invalidTextContent : Content := { Type_ := "public.utf8-plain-text", Value := [255, 104] }

/-- A `HistoryItem` table whose key column is `Zid` and that declares `pin` before `title`;
it holds two rows. -/
def swappedTable : Table where
  cols := ["Zid", "pin", "title", "firstCopiedAt", "lastCopiedAt", "numberOfCopies",
    "application"]
  rows := [[Value.int64 1, Value.string "work", Value.string "hello", Value.null,
             Value.float64 (F64.finite 20 0), Value.int64 3, Value.null],
           [Value.int64 2, Value.string "home", Value.string "world", Value.null,
             Value.float64 (F64.finite 10 0), Value.int64 1, Value.null]]

/-- The store that holds `swappedTable` and no other table. -/
def swappedStore : DB where
  Query := fun q _ =>
    if q = probeQuery then
      Except.ok { Columns := Except.ok swappedTable.cols, rows := swappedTable.rows.take 1 }
    else if q = dynamicQuery swappedTable.cols 0 then
      Except.ok { Columns := Except.ok swappedTable.cols, rows := swappedTable.rows }
    else Except.error "no such column or table"
  QueryRowBool := fun _ => Except.ok true

/-- A `HistoryItem` table whose key column is `Zid` and that declares its columns in the
order of the canonical field names; it holds two rows. -/
def canonicalTable : Table where
  cols := ["Zid", "title", "pin", "firstCopiedAt", "lastCopiedAt", "numberOfCopies",
    "application"]
  rows := [[Value.int64 1, Value.string "hello", Value.string "work", Value.null,
             Value.float64 (F64.finite 20 0), Value.int64 3, Value.null],
           [Value.int64 2, Value.string "world", Value.string "home", Value.null,
             Value.float64 (F64.finite 10 0), Value.int64 1, Value.null]]

/-- The store that holds `canonicalTable` and no other table. -/
def canonicalStore : DB where
  Query := fun q _ =>
    if q = probeQuery then
      Except.ok { Columns := Except.ok canonicalTable.cols, rows := canonicalTable.rows.take 1 }
    else if q = dynamicQuery canonicalTable.cols 0 then
      Except.ok { Columns := Except.ok canonicalTable.cols, rows := canonicalTable.rows }
    else Except.error "no such column or table"
  QueryRowBool := fun _ => Except.ok true

/-- The rows that the dynamic statement returns for `sixColumnStore`. -/
def sixColumnRows : Rows where
  Columns := Except.ok ["id", "title", "firstCopiedAt", "lastCopiedAt", "numberOfCopies",
    "application"]
  rows := [[Value.int64 1, Value.string "hello", Value.null, Value.float64 (F64.finite 20 0),
             Value.int64 3, Value.null],
           [Value.int64 2, Value.string "world", Value.null, Value.float64 (F64.finite 10 0),
             Value.int64 1, Value.null]]

/-- A store whose only table, `HistoryItem`, has no `pin` column and holds two rows. -/
def sixColumnStore : DB where
  Query := fun q _ =>
    if q = probeQuery then
      Except.ok { Columns := sixColumnRows.Columns, rows := sixColumnRows.rows.take 1 }
    else if q = dynamicQuery ["id", "title", "firstCopiedAt", "lastCopiedAt", "numberOfCopies",
        "application"] 0 then
      Except.ok sixColumnRows
    else Except.error "no such column or table"
  QueryRowBool := fun _ => Except.ok true

/-- Three rows of a table in the standard layout, by descending lastCopiedAt; the first holds
the text "many" in its numberOfCopies column. -/
def textCountRows : List (List Value) :=
  [[Value.int64 1, Value.string "a", Value.null, Value.null, Value.float64 (F64.finite 30 0),
     Value.string "many", Value.null],
   [Value.int64 2, Value.string "b", Value.null, Value.null, Value.float64 (F64.finite 20 0),
     Value.int64 1, Value.null],
   [Value.int64 3, Value.string "c", Value.null, Value.null, Value.float64 (F64.finite 10 0),
     Value.int64 1, Value.null]]

/-- The store in the standard layout that holds `textCountRows`, as it answers the statements
without LIMIT and with LIMIT 2. -/
def textCountStore : DB where
  Query := fun q _ =>
    if q = standardSelect then
      Except.ok { Columns := Except.ok standardNames, rows := textCountRows }
    else if q = standardSelect ++ " LIMIT 2" then
      Except.ok { Columns := Except.ok standardNames, rows := textCountRows.take 2 }
    else Except.error "no such table"
  QueryRowBool := fun _ => Except.ok true

/-- Three rows of a table in the standard layout, by descending lastCopiedAt: 30.5 and 20
seconds after the reference, and NULL. -/
def recentRows : List (List Value) :=
  [[Value.int64 1, Value.string "a", Value.null, Value.null, Value.float64 (F64.finite 61 (-1)),
     Value.int64 5, Value.null],
   [Value.int64 2, Value.string "b", Value.null, Value.null, Value.float64 (F64.finite 20 0),
     Value.int64 1, Value.null],
   [Value.int64 3, Value.string "c", Value.null, Value.null, Value.null,
     Value.int64 1, Value.null]]

/-- The store in the standard layout that holds `recentRows`, as it answers the statements
without LIMIT and with LIMIT 2. -/
def recentStore : DB where
  Query := fun q _ =>
    if q = standardSelect then
      Except.ok { Columns := Except.ok standardNames, rows := recentRows }
    else if q = standardSelect ++ " LIMIT 2" then
      Except.ok { Columns := Except.ok standardNames, rows := recentRows.take 2 }
    else Except.error "no such table"
  QueryRowBool := fun _ => Except.ok true

/-- Three rows of a table in the standard layout, by descending stored lastCopiedAt:
10000000000, 20 and 10 seconds after the reference. -/
def farFutureRows : List (List Value) :=
  [[Value.int64 1, Value.string "a", Value.null, Value.null,
     Value.float64 (F64.finite 10000000000 0), Value.int64 5, Value.null],
   [Value.int64 2, Value.string "b", Value.null, Value.null, Value.float64 (F64.finite 20 0),
     Value.int64 1, Value.null],
   [Value.int64 3, Value.string "c", Value.null, Value.null, Value.float64 (F64.finite 10 0),
     Value.int64 1, Value.null]]

/-- The store in the standard layout that holds `farFutureRows`, as it answers the statements
without LIMIT and with LIMIT 2. -/
def farFutureStore : DB where
  Query := fun q _ =>
    if q = standardSelect then
      Except.ok { Columns := Except.ok standardNames, rows := farFutureRows }
    else if q = standardSelect ++ " LIMIT 2" then
      Except.ok { Columns := Except.ok standardNames, rows := farFutureRows.take 2 }
    else Except.error "no such table"
  QueryRowBool := fun _ => Except.ok true

/-- A scanned row whose columns other than the id are all NULL. -/
def nullItem : NullableHistoryItem :=
  { ID := 1, Title := ⟨"", false⟩, Pin := ⟨"", false⟩, FirstCopiedAt := ⟨F64.finite 0 0, false⟩,
    LastCopiedAt := ⟨F64.finite 0 0, false⟩, NumberOfCopies := ⟨0, false⟩,
    Application := ⟨"", false⟩ }

/-! ## Helper lemmas -/

theorem GetItemContents_calls (rt : Runtime) (db : DB) (itemID : Int) :
    ∀ c ∈ (GetItemContents rt db itemID).2, c.isContent = true := by
  intro c hc
  unfold GetItemContents at hc
  split at hc
  · simp at hc; subst hc; simp [Call.isContent]
  · split at hc <;>
    · simp at hc
      rcases hc with hc | hc <;> subst hc <;> simp [Call.isContent]

theorem scanHistoryLoop_calls (rt : Runtime) (db : DB) (rows : List (List Value)) :
    ∀ (items : List HistoryItem) (calls : List Call),
      ∀ c ∈ (scanHistoryLoop rt db rows items calls).2, c ∈ calls ∨ c.isContent = true := by
  induction rows with
  | nil => intro items calls c hc; exact Or.inl hc
  | cons row rest ih =>
      intro items calls c hc
      unfold scanHistoryLoop at hc
      split at hc
      · exact ih _ _ c hc
      · rcases ih _ _ c hc with h | h
        · rcases List.mem_append.mp h with h | h
          · exact Or.inl h
          · exact Or.inr (GetItemContents_calls rt db _ c h)
        · exact Or.inr h

theorem scanHistoryItems_calls (rt : Runtime) (db : DB) (rows : Rows) :
    ∀ c ∈ (scanHistoryItems rt db rows).2, c.isContent = true := by
  intro c hc
  rcases scanHistoryLoop_calls rt db rows.rows [] [] c hc with h | h
  · simp at h
  · exact h

theorem tryStandardSchema_ok (rt : Runtime) (db : DB) (limit : Int) (rows : Rows)
    (h : db.Query (standardQuery limit) [] = Except.ok rows) :
    tryStandardSchema rt db limit
      = (Except.ok (scanHistoryLoop rt db rows.rows [] []).1,
          Call.Query (standardQuery limit) [] :: (scanHistoryLoop rt db rows.rows [] []).2) := by
  simp [tryStandardSchema, h, scanHistoryItems]

theorem tryStandardSchema_error (rt : Runtime) (db : DB) (limit : Int) (e : String)
    (h : db.Query (standardQuery limit) [] = Except.error e) :
    tryStandardSchema rt db limit = (Except.error e, [Call.Query (standardQuery limit) []]) := by
  simp [tryStandardSchema, h]

theorem tryAlternativeSchema_ok (rt : Runtime) (db : DB) (limit : Int) (rows : Rows)
    (h : db.Query (alternativeQuery limit) [] = Except.ok rows) :
    tryAlternativeSchema rt db limit
      = (Except.ok (scanHistoryLoop rt db rows.rows [] []).1,
          Call.Query (alternativeQuery limit) [] :: (scanHistoryLoop rt db rows.rows [] []).2) := by
  simp [tryAlternativeSchema, h, scanHistoryItems]

theorem tryAlternativeSchema_error (rt : Runtime) (db : DB) (limit : Int) (e : String)
    (h : db.Query (alternativeQuery limit) [] = Except.error e) :
    tryAlternativeSchema rt db limit
      = (Except.error e, [Call.Query (alternativeQuery limit) []]) := by
  simp [tryAlternativeSchema, h]

theorem matchColumn_eq (rt : Runtime) (col : String) (order selectCols : List String) :
    matchColumn rt col order selectCols
      = if order.any (matchesField rt col) then selectCols ++ [col] else selectCols := by
  induction order with
  | nil => simp [matchColumn]
  | cons name rest ih =>
      unfold matchColumn
      by_cases h : (rt.EqualFold col name || rt.EqualFold col ("Z" ++ name)) = true
      · simp [h, matchesField]
      · rw [if_neg h, ih]
        have h2 : matchesField rt col name = false := by
          simpa [matchesField] using h
        simp [List.any_cons, h2]

theorem rangeOrder_any (rt : Runtime) (i : Nat) (f : String → Bool) :
    (rt.rangeOrder i).any f = standardNames.any f := by
  have hp := rt.rangeOrder_perm i
  rw [Bool.eq_iff_iff]
  simp only [List.any_eq_true]
  constructor
  · rintro ⟨x, hx, hf⟩; exact ⟨x, hp.mem_iff.mp hx, hf⟩
  · rintro ⟨x, hx, hf⟩; exact ⟨x, hp.mem_iff.mpr hx, hf⟩

theorem selectColsLoop_eq (rt : Runtime) (cols : List String) :
    ∀ (i : Nat) (selectCols : List String),
      selectColsLoop rt cols i selectCols
        = selectCols ++ cols.filter (fun col => standardNames.any (matchesField rt col)) := by
  induction cols with
  | nil => intro i selectCols; simp [selectColsLoop]
  | cons col rest ih =>
      intro i selectCols
      unfold selectColsLoop
      rw [ih, matchColumn_eq, rangeOrder_any]
      by_cases h : standardNames.any (matchesField rt col) = true
      · simp [h, List.filter_cons]
      · simp [h, List.filter_cons]

theorem tryDynamicSchema_absent (rt : Runtime) (db : DB) (limit : Int)
    (h : db.QueryRowBool tableExistsQuery = Except.ok false) :
    (tryDynamicSchema rt db limit).1 = Except.error "HistoryItem table not found in database" := by
  simp [tryDynamicSchema, h]

theorem tryDynamicSchema_no_match (rt : Runtime) (db : DB) (limit : Int)
    (h : ∀ rows cols, db.Query probeQuery [] = Except.ok rows → rows.Columns = Except.ok cols →
      ∀ col ∈ cols, ∀ name ∈ standardNames, matchesField rt col name = false) :
    ∃ e, (tryDynamicSchema rt db limit).1 = Except.error e := by
  unfold tryDynamicSchema
  cases h0 : db.QueryRowBool tableExistsQuery with
  | error e => exact ⟨_, rfl⟩
  | ok tableExists =>
      cases tableExists with
      | false => exact ⟨_, rfl⟩
      | true =>
          cases h1 : db.Query probeQuery [] with
          | error e => exact ⟨_, rfl⟩
          | ok rows =>
              cases h2 : rows.Columns with
              | error e => simp [h2]
              | ok cols =>
                  have hsel : selectColsLoop rt cols 0 [] = [] := by
                    rw [selectColsLoop_eq]
                    simp only [List.nil_append, List.filter_eq_nil_iff]
                    intro col hcol
                    simp only [List.any_eq_true, not_exists, not_and, Bool.not_eq_true]
                    exact fun name hname => h rows cols h1 h2 col hcol name hname
                  simp [h2, hsel]

theorem ToHistoryItem_contents (rt : Runtime) (n : NullableHistoryItem) :
    (n.ToHistoryItem rt).Contents = [] := by
  unfold NullableHistoryItem.ToHistoryItem
  cases n.Title.Valid <;> cases n.Pin.Valid <;> cases n.FirstCopiedAt.Valid <;>
    cases n.LastCopiedAt.Valid <;> cases n.NumberOfCopies.Valid <;>
    cases n.Application.Valid <;> rfl

theorem ToHistoryItem_times (rt : Runtime) (n : NullableHistoryItem) :
    (n.ToHistoryItem rt).FirstCopiedAt
      = (if n.FirstCopiedAt.Valid then cocoaTimestampToTime rt n.FirstCopiedAt.Float64
         else Time.zero) ∧
    (n.ToHistoryItem rt).LastCopiedAt
      = (if n.LastCopiedAt.Valid then cocoaTimestampToTime rt n.LastCopiedAt.Float64
         else Time.zero) := by
  unfold NullableHistoryItem.ToHistoryItem
  constructor <;>
    cases n.Title.Valid <;> cases n.Pin.Valid <;> cases n.FirstCopiedAt.Valid <;>
    cases n.LastCopiedAt.Valid <;> cases n.NumberOfCopies.Valid <;>
    cases n.Application.Valid <;> rfl

theorem ToHistoryItem_id (rt : Runtime) (n : NullableHistoryItem) :
    (n.ToHistoryItem rt).ID = n.ID := by
  unfold NullableHistoryItem.ToHistoryItem
  cases n.Title.Valid <;> cases n.Pin.Valid <;> cases n.FirstCopiedAt.Valid <;>
    cases n.LastCopiedAt.Valid <;> cases n.NumberOfCopies.Valid <;>
    cases n.Application.Valid <;> rfl

theorem scanHistoryLoop_items (rt : Runtime) (db : DB) (rows : List (List Value)) :
    ∀ (items : List HistoryItem) (calls : List Call),
      (scanHistoryLoop rt db rows items calls).1 = items ++ rows.filterMap (scannedItem rt db) := by
  induction rows with
  | nil => intro items calls; simp [scanHistoryLoop]
  | cons row rest ih =>
      intro items calls
      unfold scanHistoryLoop
      cases hs : scanNullableHistoryItem rt row with
      | error e => simp [ih, List.filterMap_cons, scannedItem, hs]
      | ok n =>
          simp only [ih, List.filterMap_cons, scannedItem, hs, itemOf]
          cases (GetItemContents rt db (n.ToHistoryItem rt).ID).1 <;> simp

theorem filterMap_scannedItem (rt : Runtime) (db : DB) :
    ∀ (rows : List (List Value)) (ns : List NullableHistoryItem),
      rows.map (scanNullableHistoryItem rt) = ns.map Except.ok →
      rows.filterMap (scannedItem rt db) = ns.map (itemOf rt db) := by
  intro rows
  induction rows with
  | nil =>
      intro ns h
      cases ns with
      | nil => rfl
      | cons n rest => simp at h
  | cons row rest ih =>
      intro ns h
      cases ns with
      | nil => simp at h
      | cons n ns1 =>
          simp only [List.map_cons, List.cons.injEq] at h
          simp [List.filterMap_cons, scannedItem, h.1, ih ns1 h.2]

theorem itemOf_base (rt : Runtime) (db : DB) (n : NullableHistoryItem) :
    { itemOf rt db n with Contents := [] } = n.ToHistoryItem rt := by
  have hc : (n.ToHistoryItem rt).Contents = [] := (ToHistoryItem_contents rt n)
  unfold itemOf
  cases (GetItemContents rt db (n.ToHistoryItem rt).ID).1 with
  | error e =>
      simp only
      rw [← hc]
  | ok cs =>
      simp only
      rw [← hc]

theorem scanContents_acc (rt : Runtime) (rows : List (List Value)) :
    ∀ (acc cs : List Content), rows.map (scanContent rt) = cs.map Except.ok →
      scanContents rt rows acc = Except.ok (acc ++ cs) := by
  induction rows with
  | nil =>
      intro acc cs h
      cases cs with
      | nil => simp [scanContents]
      | cons c rest => simp at h
  | cons row rest ih =>
      intro acc cs h
      cases cs with
      | nil => simp at h
      | cons c cs1 =>
          simp only [List.map_cons, List.cons.injEq] at h
          unfold scanContents
          rw [h.1]
          simp [ih (acc ++ [c]) cs1 h.2]

theorem scanContents_fail (rt : Runtime) (rows : List (List Value)) :
    ∀ (acc : List Content), (∃ row ∈ rows, ∃ e, scanContent rt row = Except.error e) →
      ∃ e, scanContents rt rows acc = Except.error e := by
  induction rows with
  | nil => intro acc h; simp at h
  | cons row rest ih =>
      intro acc h
      unfold scanContents
      cases hs : scanContent rt row with
      | error e => exact ⟨e, rfl⟩
      | ok c =>
          obtain ⟨r, hr, e, he⟩ := h
          rcases List.mem_cons.mp hr with h1 | h1
          · subst h1; rw [hs] at he; cases he
          · exact ih _ ⟨r, h1, e, he⟩

/-! ### UTF-8 -/

theorem byte_val_ofNat (n : Nat) (h : n < 256) : (Fin.ofNat n : Byte).val = n := by
  simp [Fin.ofNat]
  omega

theorem decodeRune_encodeNat (v : Nat)
    (hvalid : v < 55296 ∨ (57343 < v ∧ v < 1114112)) (rest : List Byte) :
    ∃ b0 tail, encodeNat v = b0 :: tail ∧
      decodeRune b0 (tail ++ rest) = (Char.ofNat v, (encodeNat v).length) := by
  by_cases h1 : v < 128
  · refine ⟨Fin.ofNat v, [], by simp [encodeNat, h1], ?_⟩
    have hb0 := byte_val_ofNat v (by omega)
    simp [decodeRune, encodeNat, h1, hb0]
  by_cases h2 : v < 2048
  · have hb0 := byte_val_ofNat (192 + v / 64) (by omega)
    have hb1 := byte_val_ofNat (128 + v % 64) (by omega)
    refine ⟨Fin.ofNat (192 + v / 64), [Fin.ofNat (128 + v % 64)], by simp [encodeNat, h1, h2], ?_⟩
    have hlt : ¬ (192 + v / 64 < 128) := by omega
    have hr : rune2 (Fin.ofNat (192 + v / 64)) (Fin.ofNat (128 + v % 64)) = some v := by
      simp only [rune2, isCont, hb0, hb1]
      rw [if_pos (by omega)]
      exact congrArg some (by omega)
    simp [decodeRune, encodeNat, h1, h2, hb0, hlt, hr]
  by_cases h3 : v < 65536
  · have hb0 := byte_val_ofNat (224 + v / 4096) (by omega)
    have hb1 := byte_val_ofNat (128 + v / 64 % 64) (by omega)
    have hb2 := byte_val_ofNat (128 + v % 64) (by omega)
    refine ⟨Fin.ofNat (224 + v / 4096),
      [Fin.ofNat (128 + v / 64 % 64), Fin.ofNat (128 + v % 64)],
      by simp [encodeNat, h1, h2, h3], ?_⟩
    have hlt : ¬ (224 + v / 4096 < 128) := by omega
    have hr2 : rune2 (Fin.ofNat (224 + v / 4096)) (Fin.ofNat (128 + v / 64 % 64)) = none := by
      simp only [rune2, isCont, hb0, hb1]
      rw [if_neg (by omega)]
    have hr : rune3 (Fin.ofNat (224 + v / 4096)) (Fin.ofNat (128 + v / 64 % 64))
        (Fin.ofNat (128 + v % 64)) = some v := by
      simp only [rune3, isCont, hb0, hb1, hb2]
      rw [if_pos (by omega)]
      exact congrArg some (by omega)
    simp [decodeRune, encodeNat, h1, h2, h3, hb0, hlt, hr2, hr]
  · have hb0 := byte_val_ofNat (240 + v / 262144) (by omega)
    have hb1 := byte_val_ofNat (128 + v / 4096 % 64) (by omega)
    have hb2 := byte_val_ofNat (128 + v / 64 % 64) (by omega)
    have hb3 := byte_val_ofNat (128 + v % 64) (by omega)
    refine ⟨Fin.ofNat (240 + v / 262144),
      [Fin.ofNat (128 + v / 4096 % 64), Fin.ofNat (128 + v / 64 % 64), Fin.ofNat (128 + v % 64)],
      by simp [encodeNat, h1, h2, h3], ?_⟩
    have hlt : ¬ (240 + v / 262144 < 128) := by omega
    have hr2 : rune2 (Fin.ofNat (240 + v / 262144)) (Fin.ofNat (128 + v / 4096 % 64)) = none := by
      simp only [rune2, isCont, hb0, hb1]
      rw [if_neg (by omega)]
    have hr3 : rune3 (Fin.ofNat (240 + v / 262144)) (Fin.ofNat (128 + v / 4096 % 64))
        (Fin.ofNat (128 + v / 64 % 64)) = none := by
      simp only [rune3, isCont, hb0, hb1, hb2]
      rw [if_neg (by omega)]
    have hr : rune4 (Fin.ofNat (240 + v / 262144)) (Fin.ofNat (128 + v / 4096 % 64))
        (Fin.ofNat (128 + v / 64 % 64)) (Fin.ofNat (128 + v % 64)) = some v := by
      simp only [rune4, isCont, hb0, hb1, hb2, hb3]
      rw [if_pos (by omega)]
      exact congrArg some (by omega)
    simp [decodeRune, encodeNat, h1, h2, h3, hb0, hlt, hr2, hr3, hr]

theorem decodeRunes_utf8 (l : List Char) :
    ∀ fuel, ((l.map encodeRune).flatten).length ≤ fuel →
      decodeRunes fuel ((l.map encodeRune).flatten) = l := by
  induction l with
  | nil =>
      intro fuel _
      cases fuel <;> rfl
  | cons c rest ih =>
      intro fuel hfuel
      obtain ⟨b0, tail, henc, hdec⟩ :=
        decodeRune_encodeNat c.toNat c.valid ((rest.map encodeRune).flatten)
      have hc : Char.ofNat c.toNat = c := Char.ofNat_toNat c
      have he : encodeRune c = b0 :: tail := henc
      simp only [List.map_cons, List.flatten_cons, he, List.cons_append, List.length_cons,
        List.length_append] at hfuel ⊢
      cases fuel with
      | zero => omega
      | succ fuel =>
          have hlen : (encodeNat c.toNat).length = tail.length + 1 := by rw [henc]; rfl
          simp only [decodeRunes, hdec, hc, hlen]
          congr 1
          rw [show b0 :: (tail ++ (rest.map encodeRune).flatten)
              = (b0 :: tail) ++ (rest.map encodeRune).flatten from rfl]
          rw [List.drop_append_of_le_length (by simp)]
          have hd : List.drop (tail.length + 1) (b0 :: tail) = [] := by simp
          rw [hd, List.nil_append]
          exact ih fuel (by omega)

theorem utf8Lossy_utf8Bytes (s : String) : utf8Lossy (utf8Bytes s) = s := by
  unfold utf8Lossy utf8Bytes
  rw [decodeRunes_utf8 s.toList _ (le_refl _)]
  rfl

theorem decodeChar_encodeChar (i : Nat) (hi : i < 64) : decodeChar (encodeChar i) = some i := by
  interval_cases i <;> rfl

theorem encodeChar_ne_pad (i : Nat) (hi : i < 64) : encodeChar i ≠ '=' := by
  interval_cases i <;> decide

theorem byte_ofNat (a : Byte) (n : Nat) (h : n = a.val) : (Fin.ofNat n : Byte) = a := by
  subst h
  apply Fin.ext
  simp [Fin.ofNat]

theorem decodeList_encodeList (src : List Byte) : decodeList (encodeList src) = some src := by
  induction src using encodeList.induct with
  | case1 a b c rest ih =>
      have ha := a.isLt
      have hb := b.isLt
      have hc := c.isLt
      simp only [encodeList, decodeList]
      rw [if_neg (encodeChar_ne_pad _ (Nat.mod_lt _ (by norm_num)))]
      rw [decodeChar_encodeChar _ (Nat.mod_lt _ (by norm_num)),
        decodeChar_encodeChar _ (Nat.mod_lt _ (by norm_num)),
        decodeChar_encodeChar _ (Nat.mod_lt _ (by norm_num)),
        decodeChar_encodeChar _ (Nat.mod_lt _ (by norm_num)), ih]
      simp only [Option.some.injEq, List.cons.injEq, and_true]
      refine ⟨byte_ofNat a _ ?_, byte_ofNat b _ ?_, byte_ofNat c _ ?_⟩ <;> omega
  | case2 a b =>
      have ha := a.isLt
      have hb := b.isLt
      simp only [encodeList, decodeList]
      rw [if_pos trivial, if_neg (by simp), if_neg (encodeChar_ne_pad _ (Nat.mod_lt _ (by norm_num)))]
      rw [decodeChar_encodeChar _ (Nat.mod_lt _ (by norm_num)),
        decodeChar_encodeChar _ (Nat.mod_lt _ (by norm_num)),
        decodeChar_encodeChar _ (Nat.mod_lt _ (by norm_num))]
      simp only [Option.some.injEq, List.cons.injEq, and_true]
      refine ⟨byte_ofNat a _ ?_, byte_ofNat b _ ?_⟩ <;> omega
  | case3 a =>
      have ha := a.isLt
      simp only [encodeList, decodeList]
      rw [if_pos trivial, if_neg (by simp), if_pos trivial]
      rw [decodeChar_encodeChar _ (Nat.mod_lt _ (by norm_num)),
        decodeChar_encodeChar _ (Nat.mod_lt _ (by norm_num))]
      simp only [Option.some.injEq, List.cons.injEq, and_true]
      exact byte_ofNat a _ (by omega)
  | case4 => rfl

theorem selectColsLoop_discovered (rt : Runtime) (cols : List String) :
    selectColsLoop rt cols 0 [] = discovered rt cols := by
  rw [selectColsLoop_eq]
  rfl

theorem tryDynamicSchema_executes (rt : Runtime) (db : DB) (limit : Int) (probe res : Rows)
    (cols : List String)
    (h0 : db.QueryRowBool tableExistsQuery = Except.ok true)
    (h1 : db.Query probeQuery [] = Except.ok probe)
    (h2 : probe.Columns = Except.ok cols)
    (h3 : discovered rt cols ≠ [])
    (h4 : db.Query (dynamicQuery (discovered rt cols) limit) [] = Except.ok res) :
    (tryDynamicSchema rt db limit).1 = Except.ok (res.rows.filterMap (scannedItem rt db)) := by
  have hlen : (discovered rt cols).length ≠ 0 := by
    intro h
    exact h3 (List.length_eq_zero.mp h)
  unfold tryDynamicSchema
  simp only [h0, h1, h2, selectColsLoop_discovered, Bool.not_true, if_neg hlen, h4,
    scanHistoryItems, scanHistoryLoop_items]
  simp

theorem fieldValues_eq_project (rt : Runtime) (t : Table) (row : List Value)
    (hcanon : standardNames.map (discoveredColumn rt t.cols) = (discovered rt t.cols).map some) :
    standardNames.map (t.fieldValue rt row) = t.project (discovered rt t.cols) row := by
  have h : standardNames.map (t.fieldValue rt row)
      = (standardNames.map (discoveredColumn rt t.cols)).map (t.valueAt row) := by
    rw [List.map_map]
    rfl
  rw [h, hcanon, List.map_map]
  rfl

theorem filterMap_length_of_all_some {α β : Type} (f : α → Option β) (l : List α)
    (hall : ∀ x ∈ l, ∃ y, f x = some y) : (l.filterMap f).length = l.length := by
  induction l with
  | nil => rfl
  | cons x rest ih =>
      obtain ⟨y, hy⟩ := hall x (List.mem_cons_self _ _)
      simp only [List.filterMap_cons, hy, List.length_cons]
      rw [ih (fun r hr => hall r (List.mem_cons_of_mem _ hr))]

/-- The reference date is 11323 days after the Unix epoch, itself 62135596800 seconds after
the zero time. -/
theorem Date_reference :
    Date 1970 1 1 0 0 0 0 = ⟨62135596800 * 1000000000⟩ ∧
    Date 2001 1 1 0 0 0 0 = ⟨(62135596800 + 11323 * 86400) * 1000000000⟩ := by
  constructor <;> rfl

/-! ### float64 arithmetic -/

theorem log2_eq_of_bounds (n L : Nat) (h1 : 2 ^ L ≤ n) (h2 : n < 2 ^ (L + 1)) :
    Nat.log2 n = L := by
  have hn : n ≠ 0 := by
    have : 0 < 2 ^ L := pow_pos (by norm_num) L
    omega
  have ha : Nat.log2 n < L + 1 := (Nat.log2_lt hn).2 h2
  have hb : L ≤ Nat.log2 n := (Nat.le_log2 hn).2 h1
  omega

/-- Rounding to 53 bits keeps the sign, and moves the magnitude `n` to `q1 * 2 ^ k` by at most
`n / 2 ^ 53`. -/
theorem round53_bounds (M e : Int) :
    ∃ q1 k : Nat, F64.round53 M e = F64.finite (Int.sign M * (q1 : Int)) (e + (k : Int)) ∧
      q1 * 2 ^ k * 2 ^ 53 ≤ M.natAbs * 2 ^ 53 + M.natAbs ∧
      M.natAbs * 2 ^ 53 ≤ q1 * 2 ^ k * 2 ^ 53 + M.natAbs := by
  by_cases h : M.natAbs < 2 ^ 53
  · refine ⟨M.natAbs, 0, ?_, ?_, ?_⟩
    · simp only [F64.round53, if_pos h, Int.sign_mul_natAbs]
      simp
    · simp
    · simp
  · have hn0 : M.natAbs ≠ 0 := by
      intro h0
      rw [h0] at h
      exact h (by norm_num)
    have hlog : 53 ≤ Nat.log2 M.natAbs := (Nat.le_log2 hn0).2 (not_lt.mp h)
    have hpow : 2 ^ Nat.log2 M.natAbs ≤ M.natAbs := Nat.log2_self_le hn0
    obtain ⟨k, hk⟩ : ∃ k, Nat.log2 M.natAbs = 53 + k := ⟨Nat.log2 M.natAbs - 53, by omega⟩
    have hk1 : Nat.log2 M.natAbs - 52 = k + 1 := by omega
    have hp53 : 2 ^ (53 + k) = 2 ^ k * 2 ^ 53 := by rw [pow_add]; ring
    rw [hk, hp53] at hpow
    obtain ⟨A, r, H, hA, hnr, hrH, hH, hq, hq1⟩ : ∃ A r H : Nat,
        M.natAbs / 2 ^ (k + 1) * 2 ^ (k + 1) = A ∧ M.natAbs = A + r ∧ r < 2 * H ∧ 2 ^ k = H ∧
        M.natAbs % 2 ^ (k + 1) = r ∧ (M.natAbs / 2 ^ (k + 1) + 1) * 2 ^ (k + 1) = A + 2 * H := by
      refine ⟨M.natAbs / 2 ^ (k + 1) * 2 ^ (k + 1), M.natAbs % 2 ^ (k + 1), 2 ^ k, rfl, ?_, ?_, rfl,
        rfl, ?_⟩
      · exact (Nat.div_add_mod' _ _).symm
      · have := Nat.mod_lt M.natAbs (pow_pos (by norm_num : 0 < 2) (k + 1))
        rw [pow_succ] at this
        omega
      · rw [pow_succ]; ring
    rw [hH] at hpow
    by_cases hc : 2 ^ k < M.natAbs % 2 ^ (k + 1) ∨
        (M.natAbs % 2 ^ (k + 1) = 2 ^ k ∧ M.natAbs / 2 ^ (k + 1) % 2 = 1)
    · refine ⟨M.natAbs / 2 ^ (k + 1) + 1, k + 1, ?_, ?_, ?_⟩
      · simp only [F64.round53, if_neg h, hk1, Nat.add_sub_cancel, if_pos hc]
      · have hle : H ≤ r := by
          rw [hq, hH] at hc
          rcases hc with hc | hc
          · exact le_of_lt hc
          · exact le_of_eq hc.1.symm
        rw [hq1]
        omega
      · rw [hq1]
        omega
    · refine ⟨M.natAbs / 2 ^ (k + 1), k + 1, ?_, ?_, ?_⟩
      · simp only [F64.round53, if_neg h, hk1, Nat.add_sub_cancel, if_neg hc]
      · rw [hA]
        omega
      · have hle : r ≤ H := by
          rw [hq, hH] at hc
          by_contra hlt
          exact hc (Or.inl (not_le.mp hlt))
        rw [hA]
        omega

theorem abs_sign_cast_le_one (M : Int) : |((Int.sign M : Int) : ℚ)| ≤ 1 := by
  rcases lt_trichotomy M 0 with h | h | h
  · rw [Int.sign_eq_neg_one_of_neg h]; norm_num
  · rw [h]; norm_num
  · rw [Int.sign_eq_one_of_pos h]; norm_num

theorem abs_dyadic (M e : Int) : |dyadic M e| = (M.natAbs : ℚ) * (2 : ℚ) ^ e := by
  have h2 : (0 : ℚ) < (2 : ℚ) ^ e := zpow_pos (by norm_num) e
  unfold dyadic
  rw [abs_mul, abs_of_pos h2]
  congr 1
  rw [Nat.cast_natAbs, Int.cast_abs]

/-- The float64 nearest to `M * 2 ^ e` differs from it by at most the fraction `2 ^ (-53)` of
its magnitude. -/
theorem round53_rel (M e : Int) :
    ∃ m1 e1 : Int, F64.round53 M e = F64.finite m1 e1 ∧
      |dyadic m1 e1 - dyadic M e| * 2 ^ 53 ≤ |dyadic M e| := by
  obtain ⟨q1, k, hR, h1, h2⟩ := round53_bounds M e
  refine ⟨Int.sign M * (q1 : Int), e + (k : Int), hR, ?_⟩
  have hpos : (0 : ℚ) < (2 : ℚ) ^ e := zpow_pos (by norm_num) e
  have h1q : (q1 : ℚ) * 2 ^ k * 2 ^ 53 ≤ (M.natAbs : ℚ) * 2 ^ 53 + (M.natAbs : ℚ) := by
    exact_mod_cast h1
  have h2q : (M.natAbs : ℚ) * 2 ^ 53 ≤ (q1 : ℚ) * 2 ^ k * 2 ^ 53 + (M.natAbs : ℚ) := by
    exact_mod_cast h2
  have hD : |(q1 : ℚ) * 2 ^ k - (M.natAbs : ℚ)| * 2 ^ 53 ≤ (M.natAbs : ℚ) := by
    have h53 : (0 : ℚ) < 2 ^ 53 := by norm_num
    rw [← abs_of_pos h53, ← abs_mul, abs_le]
    constructor <;> nlinarith
  have hM : (M : ℚ) = ((Int.sign M : Int) : ℚ) * (M.natAbs : ℚ) := by
    have h0 : ((Int.sign M * (M.natAbs : Int) : Int) : ℚ) = (M : ℚ) := by
      rw [Int.sign_mul_natAbs]
    rw [← h0, Int.cast_mul, Int.cast_natCast]
  have hdiff : dyadic (Int.sign M * (q1 : Int)) (e + (k : Int)) - dyadic M e
      = ((Int.sign M : Int) : ℚ) * (((q1 : ℚ) * 2 ^ k - (M.natAbs : ℚ)) * (2 : ℚ) ^ e) := by
    unfold dyadic
    rw [zpow_add₀ (by norm_num : (2 : ℚ) ≠ 0), zpow_natCast]
    conv_lhs => rw [hM]
    push_cast
    ring
  rw [hdiff, abs_dyadic, abs_mul, abs_mul, abs_of_pos hpos]
  have hs := abs_sign_cast_le_one M
  have hnn : 0 ≤ |(q1 : ℚ) * 2 ^ k - (M.natAbs : ℚ)| * (2 : ℚ) ^ e :=
    mul_nonneg (abs_nonneg _) (le_of_lt hpos)
  calc |((Int.sign M : Int) : ℚ)| * (|(q1 : ℚ) * 2 ^ k - (M.natAbs : ℚ)| * (2 : ℚ) ^ e) * 2 ^ 53
      ≤ 1 * (|(q1 : ℚ) * 2 ^ k - (M.natAbs : ℚ)| * (2 : ℚ) ^ e) * 2 ^ 53 := by
        apply mul_le_mul_of_nonneg_right _ (by norm_num)
        exact mul_le_mul_of_nonneg_right hs hnn
    _ = (|(q1 : ℚ) * 2 ^ k - (M.natAbs : ℚ)| * 2 ^ 53) * (2 : ℚ) ^ e := by ring
    _ ≤ (M.natAbs : ℚ) * (2 : ℚ) ^ e := mul_le_mul_of_nonneg_right hD (le_of_lt hpos)

/-- Truncation towards zero moves a value by less than one and does not enlarge it. -/
theorem truncDyadic_bounds (m e : Int) :
    |((truncDyadic m e : Int) : ℚ) - dyadic m e| < 1 ∧
    |((truncDyadic m e : Int) : ℚ)| ≤ |dyadic m e| := by
  by_cases he : 0 ≤ e
  · have hz : (2 : ℚ) ^ e = (2 : ℚ) ^ e.toNat := by
      rw [← zpow_natCast, Int.toNat_of_nonneg he]
    have hv : ((truncDyadic m e : Int) : ℚ) = dyadic m e := by
      simp only [truncDyadic, if_pos he, dyadic, hz]
      push_cast
      ring
    rw [hv]
    simp
  · have hneg : e < 0 := not_le.mp he
    obtain ⟨j, hj⟩ : ∃ j : Nat, (-e).toNat = j ∧ e = -(j : Int) :=
      ⟨(-e).toNat, rfl, by rw [Int.toNat_of_nonneg (by omega)]; ring⟩
    have hpj : (0 : ℚ) < (2 : ℚ) ^ j := by positivity
    have hz : (2 : ℚ) ^ e = ((2 : ℚ) ^ j)⁻¹ := by
      rw [hj.2, zpow_neg, zpow_natCast]
    have hT1 : ((m.natAbs / 2 ^ j : Nat) : ℚ) ≤ (m.natAbs : ℚ) / (2 : ℚ) ^ j := by
      have := @Nat.cast_div_le ℚ _ m.natAbs (2 ^ j)
      simpa using this
    have hT2 : (m.natAbs : ℚ) / (2 : ℚ) ^ j < ((m.natAbs / 2 ^ j : Nat) : ℚ) + 1 := by
      rw [div_lt_iff₀ hpj]
      have h := Nat.lt_div_mul_add (a := m.natAbs) (b := 2 ^ j) (pow_pos (by norm_num) j)
      have h2 : (m.natAbs : ℚ) < ((m.natAbs / 2 ^ j : Nat) : ℚ) * (2 : ℚ) ^ j + (2 : ℚ) ^ j := by
        exact_mod_cast h
      linarith
    have hT0 : (0 : ℚ) ≤ ((m.natAbs / 2 ^ j : Nat) : ℚ) := Nat.cast_nonneg _
    have hM : (m : ℚ) = ((Int.sign m : Int) : ℚ) * (m.natAbs : ℚ) := by
      have h0 : ((Int.sign m * (m.natAbs : Int) : Int) : ℚ) = (m : ℚ) := by
        rw [Int.sign_mul_natAbs]
      rw [← h0, Int.cast_mul, Int.cast_natCast]
    have hv : ((truncDyadic m e : Int) : ℚ)
        = ((Int.sign m : Int) : ℚ) * ((m.natAbs / 2 ^ j : Nat) : ℚ) := by
      simp only [truncDyadic, if_neg he, hj.1]
      rw [Int.cast_mul, Int.cast_natCast]
    have hd : dyadic m e = ((Int.sign m : Int) : ℚ) * ((m.natAbs : ℚ) / (2 : ℚ) ^ j) := by
      unfold dyadic
      rw [hz]
      conv_lhs => rw [hM]
      rw [div_eq_mul_inv]
      ring
    have hs := abs_sign_cast_le_one m
    constructor
    · rw [hv, hd, ← mul_sub, abs_mul]
      have hx : |((m.natAbs / 2 ^ j : Nat) : ℚ) - (m.natAbs : ℚ) / (2 : ℚ) ^ j| < 1 := by
        rw [abs_lt]
        constructor <;> linarith
      calc |((Int.sign m : Int) : ℚ)| * |((m.natAbs / 2 ^ j : Nat) : ℚ) - (m.natAbs : ℚ) / (2 : ℚ) ^ j|
          ≤ 1 * |((m.natAbs / 2 ^ j : Nat) : ℚ) - (m.natAbs : ℚ) / (2 : ℚ) ^ j| :=
            mul_le_mul_of_nonneg_right hs (abs_nonneg _)
        _ < 1 := by linarith
    · rw [abs_dyadic, hz, ← div_eq_mul_inv, hv, abs_mul, abs_of_nonneg hT0]
      calc |((Int.sign m : Int) : ℚ)| * ((m.natAbs / 2 ^ j : Nat) : ℚ)
          ≤ 1 * ((m.natAbs / 2 ^ j : Nat) : ℚ) := mul_le_mul_of_nonneg_right hs hT0
        _ ≤ (m.natAbs : ℚ) / (2 : ℚ) ^ j := by linarith

/-- The Duration computed from a timestamp whose product with `time.Second` lies within the
int64 range: it does not depend on the implementation and is within 1025 ns of the exact
product. -/
theorem duration_bounds (impl : F64 → Int) (m e : Int)
    (hrange : |dyadic (m * Second) e| ≤ 2 ^ 63 - 1025) :
    |((F64.toInt64 impl (F64.mulInt (F64.finite m e) Second) : Int) : ℚ)
        - dyadic (m * Second) e| < 1025 := by
  obtain ⟨m1, e1, hR, hrel⟩ := round53_rel (m * Second) e
  obtain ⟨ht1, ht2⟩ := truncDyadic_bounds m1 e1
  have hP := abs_nonneg (dyadic (m * Second) e)
  have hd1 : |dyadic m1 e1 - dyadic (m * Second) e| < 1024 := by
    have h53 : (2 : ℚ) ^ 53 * 1024 = 2 ^ 63 := by norm_num
    nlinarith [abs_nonneg (dyadic m1 e1 - dyadic (m * Second) e)]
  have hd2 : |dyadic m1 e1| < 2 ^ 63 - 1 := by
    have := abs_sub_abs_le_abs_sub (dyadic m1 e1) (dyadic (m * Second) e)
    linarith
  have hv : |((truncDyadic m1 e1 : Int) : ℚ)| < 2 ^ 63 - 1 := lt_of_le_of_lt ht2 hd2
  have hin : -2 ^ 63 ≤ truncDyadic m1 e1 ∧ truncDyadic m1 e1 < 2 ^ 63 := by
    rw [abs_lt] at hv
    constructor
    · have h1 : ((-2 ^ 63 : Int) : ℚ) ≤ ((truncDyadic m1 e1 : Int) : ℚ) := by
        push_cast
        linarith [hv.1]
      exact_mod_cast h1
    · have h1 : ((truncDyadic m1 e1 : Int) : ℚ) < ((2 ^ 63 : Int) : ℚ) := by
        push_cast
        linarith [hv.2]
      exact_mod_cast h1
  have hval : F64.toInt64 impl (F64.mulInt (F64.finite m e) Second) = truncDyadic m1 e1 := by
    simp only [F64.mulInt, hR, F64.toInt64, if_pos hin]
  rw [hval]
  have htri := abs_sub_le ((truncDyadic m1 e1 : Int) : ℚ) (dyadic m1 e1) (dyadic (m * Second) e)
  linarith

/-- The value of `F64.round53` on a magnitude whose binary length is known. -/
theorem round53_of_log2 (M e : Int) (L : Nat) (h1 : 2 ^ L ≤ M.natAbs)
    (h2 : M.natAbs < 2 ^ (L + 1)) (h53 : 53 ≤ L) :
    F64.round53 M e
      = F64.finite
          (Int.sign M *
            ((if 2 ^ (L - 52 - 1) < M.natAbs % 2 ^ (L - 52) ∨
                  (M.natAbs % 2 ^ (L - 52) = 2 ^ (L - 52 - 1) ∧ M.natAbs / 2 ^ (L - 52) % 2 = 1)
              then M.natAbs / 2 ^ (L - 52) + 1 else M.natAbs / 2 ^ (L - 52) : Nat) : Int))
          (e + ((L - 52 : Nat) : Int)) := by
  have hlog := log2_eq_of_bounds M.natAbs L h1 h2
  have hge : ¬ M.natAbs < 2 ^ 53 := by
    have : 2 ^ 53 ≤ 2 ^ L := Nat.pow_le_pow_right (by norm_num) h53
    omega
  simp only [F64.round53, if_neg hge, hlog]

/-- A whole number of seconds below `2 ^ 62` nanoseconds is converted exactly. -/
theorem duration_whole_seconds (impl : F64 → Int) (s : Int) (hs : |s| * 10 ^ 9 < 2 ^ 62) :
    F64.toInt64 impl (F64.mulInt (F64.finite s 0) Second) = s * Second := by
  have hn : (s * Second).natAbs = s.natAbs * 10 ^ 9 := by
    rw [Int.natAbs_mul]
    rfl
  have hlt : (s * Second).natAbs < 2 ^ 62 := by
    rw [hn]
    have h1 : ((s.natAbs * 10 ^ 9 : Nat) : Int) < ((2 ^ 62 : Nat) : Int) := by
      push_cast
      norm_num at hs
      exact hs
    exact_mod_cast h1
  have habs : |s * Second| < 2 ^ 62 := by
    rw [← Int.natCast_natAbs]
    exact_mod_cast hlt
  have hin : -2 ^ 63 ≤ s * Second ∧ s * Second < 2 ^ 63 := by
    rw [abs_lt] at habs
    constructor <;> omega
  by_cases h : (s * Second).natAbs < 2 ^ 53
  · have h00 : (0 : Int) ≤ 0 := le_refl 0
    have hmul : s * Second * 2 ^ (0 : Int).toNat = s * Second := by simp
    simp only [F64.mulInt, F64.round53, if_pos h, F64.toInt64, truncDyadic, if_pos h00, hmul,
      if_pos hin]
  · have hn0 : (s * Second).natAbs ≠ 0 := by
      intro h0
      rw [h0] at h
      exact h (by norm_num)
    have hlog1 : 53 ≤ Nat.log2 (s * Second).natAbs := (Nat.le_log2 hn0).2 (not_lt.mp h)
    have hlog2 : Nat.log2 (s * Second).natAbs < 62 := (Nat.log2_lt hn0).2 hlt
    obtain ⟨k, hk, hk9⟩ : ∃ k, Nat.log2 (s * Second).natAbs - 52 = k + 1 ∧ k + 1 ≤ 9 :=
      ⟨Nat.log2 (s * Second).natAbs - 53, by omega, by omega⟩
    have hdvd : 2 ^ (k + 1) ∣ (s * Second).natAbs := by
      rw [hn]
      have h9 : (2 : Nat) ^ (k + 1) ∣ 2 ^ 9 := pow_dvd_pow 2 hk9
      have h10 : (2 : Nat) ^ 9 ∣ 10 ^ 9 := by norm_num
      exact Dvd.dvd.mul_left (h9.trans h10) _
    have hr : (s * Second).natAbs % 2 ^ (k + 1) = 0 := Nat.mod_eq_zero_of_dvd hdvd
    have hhalf : 0 < 2 ^ k := pow_pos (by norm_num) k
    have hc : ¬ (2 ^ k < (s * Second).natAbs % 2 ^ (k + 1) ∨
        ((s * Second).natAbs % 2 ^ (k + 1) = 2 ^ k ∧
          (s * Second).natAbs / 2 ^ (k + 1) % 2 = 1)) := by
      rw [hr]
      omega
    have hq : ((s * Second).natAbs / 2 ^ (k + 1)) * 2 ^ (k + 1) = (s * Second).natAbs :=
      Nat.div_mul_cancel hdvd
    have hval : Int.sign (s * Second) * (((s * Second).natAbs / 2 ^ (k + 1) : Nat) : Int)
        * 2 ^ (k + 1) = s * Second := by
      rw [mul_assoc]
      have : ((((s * Second).natAbs / 2 ^ (k + 1) : Nat) : Int)) * 2 ^ (k + 1)
          = (((s * Second).natAbs : Nat) : Int) := by
        exact_mod_cast hq
      rw [this, Int.sign_mul_natAbs]
    have hnn : (0 : Int) ≤ 0 + ((k + 1 : Nat) : Int) := by omega
    have htn : (0 + ((k + 1 : Nat) : Int)).toNat = k + 1 := by omega
    simp only [F64.mulInt, F64.round53, if_neg h, hk, Nat.add_sub_cancel, if_neg hc, F64.toInt64,
      truncDyadic, if_pos hnn, htn, hval, if_pos hin]

theorem scanNullableHistoryItem_seven (rt : Runtime) (row : List Value)
    (n : NullableHistoryItem) (h : scanNullableHistoryItem rt row = Except.ok n) :
    ∃ c0 c1 c2 c3 c4 c5 c6, row = [c0, c1, c2, c3, c4, c5, c6] ∧
      convertInt rt c0 = Except.ok n.ID ∧ scanNullString rt c1 = Except.ok n.Title ∧
      scanNullString rt c2 = Except.ok n.Pin ∧
      scanNullFloat64 rt c3 = Except.ok n.FirstCopiedAt ∧
      scanNullFloat64 rt c4 = Except.ok n.LastCopiedAt ∧
      scanNullInt64 rt c5 = Except.ok n.NumberOfCopies ∧
      scanNullString rt c6 = Except.ok n.Application := by
  unfold scanNullableHistoryItem at h
  split at h
  · rename_i c0 c1 c2 c3 c4 c5 c6
    refine ⟨c0, c1, c2, c3, c4, c5, c6, rfl, ?_⟩
    cases h0 : convertInt rt c0 <;> rw [h0] at h <;> simp only at h
    · cases h
    cases h1 : scanNullString rt c1 <;> rw [h1] at h <;> simp only at h
    · cases h
    cases h2 : scanNullString rt c2 <;> rw [h2] at h <;> simp only at h
    · cases h
    cases h3 : scanNullFloat64 rt c3 <;> rw [h3] at h <;> simp only at h
    · cases h
    cases h4 : scanNullFloat64 rt c4 <;> rw [h4] at h <;> simp only at h
    · cases h
    cases h5 : scanNullInt64 rt c5 <;> rw [h5] at h <;> simp only at h
    · cases h
    cases h6 : scanNullString rt c6 <;> rw [h6] at h <;> simp only at h
    · cases h
    cases h
    exact ⟨rfl, rfl, rfl, rfl, rfl, rfl, rfl⟩
  · cases h

theorem scannedItem_not_seven (rt : Runtime) (db : DB) (row : List Value)
    (h : row.length ≠ 7) : scannedItem rt db row = none := by
  unfold scannedItem
  cases hs : scanNullableHistoryItem rt row with
  | error e => rfl
  | ok n =>
      obtain ⟨c0, c1, c2, c3, c4, c5, c6, hrow, _⟩ := scanNullableHistoryItem_seven rt row n hs
      rw [hrow] at h
      exact absurd rfl h

theorem filterMap_take_of_all_some {α β : Type} (f : α → Option β) (l : List α)
    (hall : ∀ x ∈ l, ∃ y, f x = some y) :
    ∀ n : Nat, (l.take n).filterMap f = (l.filterMap f).take n := by
  induction l with
  | nil => intro n; simp
  | cons x rest ih =>
      intro n
      obtain ⟨y, hy⟩ := hall x (List.mem_cons_self _ _)
      cases n with
      | zero => simp
      | succ n =>
          simp only [List.take_succ_cons, List.filterMap_cons, hy]
          rw [ih (fun r hr => hall r (List.mem_cons_of_mem _ hr)) n]

theorem standardQuery_text (k : Nat) (hk : 0 < k) :
    standardQuery 0 = standardSelect ∧
    standardQuery (k : Int) = standardSelect ++ " LIMIT " ++ toString k := by
  have hpos : (0 : Int) < (k : Int) := by exact_mod_cast hk
  constructor
  · rfl
  · simp only [standardQuery, withLimit, if_pos hpos]
    rfl

theorem alternativeQuery_text (k : Nat) (hk : 0 < k) :
    alternativeQuery 0 = alternativeSelect ∧
    alternativeQuery (k : Int) = alternativeSelect ++ " LIMIT " ++ toString k := by
  have hpos : (0 : Int) < (k : Int) := by exact_mod_cast hk
  constructor
  · rfl
  · simp only [alternativeQuery, withLimit, if_pos hpos]
    rfl

theorem GetRecentItems_recognized (rt : Runtime) (db : DB) (stored : List (List Value))
    (k : Nat) (hk : 0 < k) (h : RecognizedLayout db stored k) :
    (GetRecentItems rt db 0).1 = Except.ok (stored.filterMap (scannedItem rt db)) ∧
    (GetRecentItems rt db (k : Int)).1
      = Except.ok ((stored.take k).filterMap (scannedItem rt db)) := by
  obtain ⟨hs0, hsk⟩ := standardQuery_text k hk
  obtain ⟨ha0, hak⟩ := alternativeQuery_text k hk
  rcases h with ⟨⟨rows0, hq0, hr0⟩, ⟨rowsk, hqk, hrk⟩⟩ |
    ⟨⟨⟨e0, he0⟩, ⟨ek, hek⟩⟩, ⟨rows0, hq0, hr0⟩, ⟨rowsk, hqk, hrk⟩⟩
  · rw [← hs0] at hq0
    rw [← hsk] at hqk
    constructor
    · simp [GetRecentItems, tryStandardSchema_ok rt db 0 rows0 hq0, scanHistoryLoop_items, hr0]
    · simp [GetRecentItems, tryStandardSchema_ok rt db k rowsk hqk, scanHistoryLoop_items, hrk]
  · rw [← hs0] at he0
    rw [← hsk] at hek
    rw [← ha0] at hq0
    rw [← hak] at hqk
    constructor
    · simp [GetRecentItems, tryStandardSchema_error rt db 0 e0 he0,
        tryAlternativeSchema_ok rt db 0 rows0 hq0, scanHistoryLoop_items, hr0]
    · simp [GetRecentItems, tryStandardSchema_error rt db k ek hek,
        tryAlternativeSchema_ok rt db k rowsk hqk, scanHistoryLoop_items, hrk]

/-! ### formatTime -/

/-- The calendar dates of the zero time, of the Unix epoch and of the reference date. -/
theorem civilDate_checks :
    civilDate 0 = (1, 1, 1) ∧ civilDate 719162 = (1970, 1, 1) ∧
    civilDate 730485 = (2001, 1, 1) := by
  refine ⟨?_, ?_, ?_⟩ <;> rfl

theorem Time_IsZero_iff (t : Time) : t.IsZero = true ↔ t = Time.zero := by
  cases t with
  | mk nsec => simp [Time.IsZero, Time.zero]

/-- A rendered time has at least fifteen characters, so it is not the text "<never>". -/
theorem Format_ne_never (t : Time) (offset : Int) : t.Format offset ≠ "<never>" := by
  intro h
  have hlen := congrArg (fun s : String => s.data.length) h
  simp only [Time.Format, List.length_append, List.length_cons, List.length_nil, pad2] at hlen
  omega

/-! ### Monotonicity of the timestamp conversion -/

theorem round53_value (M e : Int) :
    ∃ m1 e1 : Int, F64.round53 M e = F64.finite m1 e1 ∧
      dyadic m1 e1 = ((Int.sign M : Int) : ℚ) * (roundNat M.natAbs : ℚ) * (2 : ℚ) ^ e := by
  by_cases h : M.natAbs < 2 ^ 53
  · refine ⟨M, e, by simp only [F64.round53, if_pos h], ?_⟩
    have h0 : ((Int.sign M * (M.natAbs : Int) : Int) : ℚ) = (M : ℚ) := by
      rw [Int.sign_mul_natAbs]
    unfold dyadic roundNat
    rw [if_pos h, ← h0, Int.cast_mul, Int.cast_natCast]
  · refine ⟨_, _, by simp only [F64.round53, if_neg h]; rfl, ?_⟩
    unfold dyadic roundNat
    rw [if_neg h, zpow_add₀ (by norm_num : (2 : ℚ) ≠ 0), zpow_natCast]
    simp only [Int.cast_mul, Int.cast_natCast, Nat.cast_mul, Nat.cast_pow, Nat.cast_ofNat]
    ring

/-- For a magnitude of at least `2 ^ 53`: the shift `k`, the bounds of the magnitude and of
its rounding. -/
theorem roundNat_large (n : Nat) (h : ¬ n < 2 ^ 53) :
    ∃ k : Nat, Nat.log2 n - 52 = k + 1 ∧ 2 ^ (53 + k) ≤ n ∧ n < 2 ^ (54 + k) ∧
      2 ^ (53 + k) ≤ roundNat n ∧ roundNat n ≤ 2 ^ (54 + k) ∧
      n / 2 ^ (k + 1) * 2 ^ (k + 1) ≤ roundNat n ∧
      roundNat n ≤ (n / 2 ^ (k + 1) + 1) * 2 ^ (k + 1) := by
  have hn0 : n ≠ 0 := by
    intro h0
    rw [h0] at h
    exact h (by norm_num)
  have hlog : 53 ≤ Nat.log2 n := (Nat.le_log2 hn0).2 (not_lt.mp h)
  have hlo : 2 ^ Nat.log2 n ≤ n := Nat.log2_self_le hn0
  have hhi : n < 2 ^ (Nat.log2 n + 1) := Nat.lt_log2_self
  obtain ⟨k, hk⟩ : ∃ k, Nat.log2 n = 53 + k := ⟨Nat.log2 n - 53, by omega⟩
  have hk1 : Nat.log2 n - 52 = k + 1 := by omega
  rw [hk] at hlo
  rw [hk, show 53 + k + 1 = 54 + k by omega] at hhi
  have hp : (2 : Nat) ^ (53 + k) = 2 ^ 52 * 2 ^ (k + 1) := by
    rw [← pow_add]; congr 1; omega
  have hp2 : (2 : Nat) ^ (54 + k) = 2 ^ 53 * 2 ^ (k + 1) := by
    rw [← pow_add]; congr 1; omega
  have hpos : 0 < 2 ^ (k + 1) := pow_pos (by norm_num) _
  have hq1 : 2 ^ 52 ≤ n / 2 ^ (k + 1) := by
    rw [Nat.le_div_iff_mul_le hpos, ← hp]
    exact hlo
  have hq2 : n / 2 ^ (k + 1) < 2 ^ 53 := by
    rw [Nat.div_lt_iff_lt_mul hpos, ← hp2]
    exact hhi
  have hlow : n / 2 ^ (k + 1) * 2 ^ (k + 1) ≤ roundNat n := by
    unfold roundNat
    rw [if_neg h, hk1]
    apply Nat.mul_le_mul_right
    split <;> omega
  have hup : roundNat n ≤ (n / 2 ^ (k + 1) + 1) * 2 ^ (k + 1) := by
    unfold roundNat
    rw [if_neg h, hk1]
    apply Nat.mul_le_mul_right
    split <;> omega
  refine ⟨k, hk1, hlo, hhi, ?_, ?_, hlow, hup⟩
  · calc 2 ^ (53 + k) = 2 ^ 52 * 2 ^ (k + 1) := hp
      _ ≤ n / 2 ^ (k + 1) * 2 ^ (k + 1) := Nat.mul_le_mul_right _ hq1
      _ ≤ roundNat n := hlow
  · calc roundNat n ≤ (n / 2 ^ (k + 1) + 1) * 2 ^ (k + 1) := hup
      _ ≤ 2 ^ 53 * 2 ^ (k + 1) := Nat.mul_le_mul_right _ (by omega)
      _ = 2 ^ (54 + k) := hp2.symm

theorem roundNat_mono (n n1 : Nat) (hle : n ≤ n1) : roundNat n ≤ roundNat n1 := by
  by_cases h1 : n1 < 2 ^ 53
  · have h : n < 2 ^ 53 := lt_of_le_of_lt hle h1
    simp only [roundNat, if_pos h, if_pos h1]
    exact hle
  · obtain ⟨k1, hk1, hlo1, hhi1, hrlo1, hrhi1, hqlo1, hqhi1⟩ := roundNat_large n1 h1
    by_cases h : n < 2 ^ 53
    · have hn : roundNat n = n := by simp only [roundNat, if_pos h]
      rw [hn]
      have hp : (2 : Nat) ^ 53 ≤ 2 ^ (53 + k1) := Nat.pow_le_pow_right (by norm_num) (by omega)
      omega
    · obtain ⟨k, hk, hlo, hhi, hrlo, hrhi, hqlo, hqhi⟩ := roundNat_large n h
      have hkk : k ≤ k1 := by
        have hlt : (2 : Nat) ^ (53 + k) < 2 ^ (54 + k1) := lt_of_le_of_lt (le_trans hlo hle) hhi1
        have := (Nat.pow_lt_pow_iff_right (by norm_num : 1 < 2)).mp hlt
        omega
      rcases Nat.lt_or_ge k k1 with hlt | hge
      · have hp : (2 : Nat) ^ (54 + k) ≤ 2 ^ (53 + k1) :=
          Nat.pow_le_pow_right (by norm_num) (by omega)
        omega
      · have hkeq : k1 = k := by omega
        subst hkeq
        have hpos : 0 < 2 ^ (k1 + 1) := pow_pos (by norm_num) _
        have hq : n / 2 ^ (k1 + 1) ≤ n1 / 2 ^ (k1 + 1) := Nat.div_le_div_right hle
        rcases Nat.lt_or_ge (n / 2 ^ (k1 + 1)) (n1 / 2 ^ (k1 + 1)) with hql | hqg
        · calc roundNat n ≤ (n / 2 ^ (k1 + 1) + 1) * 2 ^ (k1 + 1) := hqhi
            _ ≤ n1 / 2 ^ (k1 + 1) * 2 ^ (k1 + 1) := Nat.mul_le_mul_right _ hql
            _ ≤ roundNat n1 := hqlo1
        · have hqeq : n1 / 2 ^ (k1 + 1) = n / 2 ^ (k1 + 1) := by omega
          have hd := Nat.div_add_mod n (2 ^ (k1 + 1))
          have hd1 := Nat.div_add_mod n1 (2 ^ (k1 + 1))
          rw [hqeq] at hd1
          have hr : n % 2 ^ (k1 + 1) ≤ n1 % 2 ^ (k1 + 1) := by omega
          unfold roundNat
          rw [if_neg h, if_neg h1, hk, hk1, hqeq]
          apply Nat.mul_le_mul_right
          simp only [Nat.add_sub_cancel]
          by_cases hc : 2 ^ k1 < n % 2 ^ (k1 + 1) ∨
              (n % 2 ^ (k1 + 1) = 2 ^ k1 ∧ n / 2 ^ (k1 + 1) % 2 = 1)
          · have hc1 : 2 ^ k1 < n1 % 2 ^ (k1 + 1) ∨
                (n1 % 2 ^ (k1 + 1) = 2 ^ k1 ∧ n / 2 ^ (k1 + 1) % 2 = 1) := by
              rcases hc with hc | hc
              · exact Or.inl (lt_of_lt_of_le hc hr)
              · rcases Nat.lt_or_ge (2 ^ k1) (n1 % 2 ^ (k1 + 1)) with hx | hx
                · exact Or.inl hx
                · exact Or.inr ⟨by omega, hc.2⟩
            rw [if_pos hc, if_pos hc1]
          · rw [if_neg hc]
            split <;> omega

theorem log2_mul_pow (n j : Nat) (hn : n ≠ 0) : Nat.log2 (n * 2 ^ j) = Nat.log2 n + j := by
  apply log2_eq_of_bounds
  · rw [pow_add]
    exact Nat.mul_le_mul_right _ (Nat.log2_self_le hn)
  · rw [show Nat.log2 n + j + 1 = (Nat.log2 n + 1) + j by omega, pow_add]
    exact Nat.mul_lt_mul_of_pos_right Nat.lt_log2_self (pow_pos (by norm_num) j)

theorem roundNat_mul_pow (n j : Nat) : roundNat (n * 2 ^ j) = roundNat n * 2 ^ j := by
  have hj : 0 < 2 ^ j := pow_pos (by norm_num) j
  by_cases hbig : n * 2 ^ j < 2 ^ 53
  · have hn : n < 2 ^ 53 := lt_of_le_of_lt (Nat.le_mul_of_pos_right n hj) hbig
    simp only [roundNat, if_pos hbig, if_pos hn]
  · have hn0 : n ≠ 0 := by
      intro h0
      rw [h0, Nat.zero_mul] at hbig
      exact hbig (by norm_num)
    have hnj0 : n * 2 ^ j ≠ 0 := Nat.mul_ne_zero hn0 (Nat.pos_iff_ne_zero.mp hj)
    have hlogj : 53 ≤ Nat.log2 (n * 2 ^ j) := (Nat.le_log2 hnj0).2 (not_lt.mp hbig)
    have hlog := log2_mul_pow n j hn0
    by_cases hn : n < 2 ^ 53
    · have hl : Nat.log2 n < 53 := (Nat.log2_lt hn0).2 hn
      obtain ⟨k, hk⟩ : ∃ k, Nat.log2 (n * 2 ^ j) - 52 = k + 1 :=
        ⟨Nat.log2 (n * 2 ^ j) - 53, by omega⟩
      have hkj : k + 1 ≤ j := by omega
      have hdvd : 2 ^ (k + 1) ∣ n * 2 ^ j := Dvd.dvd.mul_left (pow_dvd_pow 2 hkj) n
      have hr : n * 2 ^ j % 2 ^ (k + 1) = 0 := Nat.mod_eq_zero_of_dvd hdvd
      have hhalf : 0 < 2 ^ k := pow_pos (by norm_num) k
      have hc : ¬ (2 ^ k < n * 2 ^ j % 2 ^ (k + 1) ∨
          (n * 2 ^ j % 2 ^ (k + 1) = 2 ^ k ∧ n * 2 ^ j / 2 ^ (k + 1) % 2 = 1)) := by
        rw [hr]
        omega
      simp only [roundNat, if_neg hbig, if_pos hn, hk, Nat.add_sub_cancel, if_neg hc]
      exact Nat.div_mul_cancel hdvd
    · obtain ⟨k, hk⟩ : ∃ k, Nat.log2 n - 52 = k + 1 := by
        have hl : 53 ≤ Nat.log2 n := (Nat.le_log2 hn0).2 (not_lt.mp hn)
        exact ⟨Nat.log2 n - 53, by omega⟩
      have hkj : Nat.log2 (n * 2 ^ j) - 52 = (k + j) + 1 := by omega
      have hpk : (2 : Nat) ^ (k + j + 1) = 2 ^ (k + 1) * 2 ^ j := by
        rw [← pow_add]; congr 1; omega
      have hph : (2 : Nat) ^ (k + j) = 2 ^ k * 2 ^ j := pow_add 2 k j
      have hq : n * 2 ^ j / 2 ^ (k + j + 1) = n / 2 ^ (k + 1) := by
        rw [hpk]
        exact Nat.mul_div_mul_right _ _ hj
      have hr : n * 2 ^ j % 2 ^ (k + j + 1) = n % 2 ^ (k + 1) * 2 ^ j := by
        rw [hpk]
        exact Nat.mul_mod_mul_right _ _ _
      have hiff : (2 ^ (k + j) < n * 2 ^ j % 2 ^ (k + j + 1) ∨
            (n * 2 ^ j % 2 ^ (k + j + 1) = 2 ^ (k + j) ∧
              n * 2 ^ j / 2 ^ (k + j + 1) % 2 = 1)) ↔
          (2 ^ k < n % 2 ^ (k + 1) ∨
            (n % 2 ^ (k + 1) = 2 ^ k ∧ n / 2 ^ (k + 1) % 2 = 1)) := by
        rw [hq, hr, hph]
        constructor
        · rintro (h | ⟨h1, h2⟩)
          · exact Or.inl (Nat.lt_of_mul_lt_mul_right h)
          · exact Or.inr ⟨Nat.eq_of_mul_eq_mul_right hj h1, h2⟩
        · rintro (h | ⟨h1, h2⟩)
          · exact Or.inl (Nat.mul_lt_mul_of_pos_right h hj)
          · exact Or.inr ⟨by rw [h1], h2⟩
      simp only [roundNat, if_neg hbig, if_neg hn, hk, hkj, Nat.add_sub_cancel]
      by_cases hc : 2 ^ k < n % 2 ^ (k + 1) ∨
          (n % 2 ^ (k + 1) = 2 ^ k ∧ n / 2 ^ (k + 1) % 2 = 1)
      · rw [if_pos hc, if_pos (hiff.mpr hc), hq, hpk]
        ring
      · rw [if_neg hc, if_neg (fun h => hc (hiff.mp h)), hq, hpk]
        ring

theorem roundNat_dyadic_mono (a b : Nat) (e f : Int)
    (h : (a : ℚ) * (2 : ℚ) ^ e ≤ (b : ℚ) * (2 : ℚ) ^ f) :
    (roundNat a : ℚ) * (2 : ℚ) ^ e ≤ (roundNat b : ℚ) * (2 : ℚ) ^ f := by
  obtain ⟨g, i, j, he, hf⟩ : ∃ (g : Int) (i j : Nat), e = g + (i : Int) ∧ f = g + (j : Int) :=
    ⟨min e f, (e - min e f).toNat, (f - min e f).toNat,
      by rw [Int.toNat_of_nonneg (by have := min_le_left e f; omega)]; ring,
      by rw [Int.toNat_of_nonneg (by have := min_le_right e f; omega)]; ring⟩
  have hg : (0 : ℚ) < (2 : ℚ) ^ g := zpow_pos (by norm_num) g
  have h2 : (2 : ℚ) ≠ 0 := by norm_num
  rw [he, hf, zpow_add₀ h2, zpow_add₀ h2, zpow_natCast, zpow_natCast] at h ⊢
  have hnat : a * 2 ^ i ≤ b * 2 ^ j := by
    have hq : ((a * 2 ^ i : Nat) : ℚ) ≤ ((b * 2 ^ j : Nat) : ℚ) := by
      push_cast
      have h3 : (a : ℚ) * (2 : ℚ) ^ i * (2 : ℚ) ^ g ≤ (b : ℚ) * (2 : ℚ) ^ j * (2 : ℚ) ^ g := by
        linarith
      exact le_of_mul_le_mul_right h3 hg
    exact_mod_cast hq
  have hr := roundNat_mono _ _ hnat
  rw [roundNat_mul_pow, roundNat_mul_pow] at hr
  have hrq : (roundNat a : ℚ) * (2 : ℚ) ^ i ≤ (roundNat b : ℚ) * (2 : ℚ) ^ j := by
    exact_mod_cast hr
  have := mul_le_mul_of_nonneg_right hrq (le_of_lt hg)
  linarith

theorem cast_of_nonneg (M : Int) (h : 0 ≤ M) :
    (M : ℚ) = (M.natAbs : ℚ) ∧
    ((Int.sign M : Int) : ℚ) * (roundNat M.natAbs : ℚ) = (roundNat M.natAbs : ℚ) := by
  constructor
  · have : ((M.natAbs : Int) : ℚ) = (M : ℚ) := by rw [Int.natAbs_of_nonneg h]
    rw [← this, Int.cast_natCast]
  · rcases eq_or_lt_of_le h with h0 | hpos
    · rw [← h0]
      simp [roundNat]
    · rw [Int.sign_eq_one_of_pos hpos]
      simp

theorem cast_of_neg (M : Int) (h : M < 0) :
    (M : ℚ) = -(M.natAbs : ℚ) ∧
    ((Int.sign M : Int) : ℚ) * (roundNat M.natAbs : ℚ) = -(roundNat M.natAbs : ℚ) := by
  constructor
  · have : ((M.natAbs : Int) : ℚ) = -(M : ℚ) := by
      rw [Int.ofNat_natAbs_of_nonpos (le_of_lt h)]
      push_cast
      ring
    rw [← Int.cast_natCast, this]
    ring
  · rw [Int.sign_eq_neg_one_of_neg h]
    simp

/-- Rounding to float64 is monotone in the value rounded. -/
theorem round53_mono (M e M1 e1 : Int) (h : dyadic M e ≤ dyadic M1 e1) :
    ((Int.sign M : Int) : ℚ) * (roundNat M.natAbs : ℚ) * (2 : ℚ) ^ e
      ≤ ((Int.sign M1 : Int) : ℚ) * (roundNat M1.natAbs : ℚ) * (2 : ℚ) ^ e1 := by
  have hp : (0 : ℚ) < (2 : ℚ) ^ e := zpow_pos (by norm_num) e
  have hp1 : (0 : ℚ) < (2 : ℚ) ^ e1 := zpow_pos (by norm_num) e1
  have hr : (0 : ℚ) ≤ (roundNat M.natAbs : ℚ) := Nat.cast_nonneg _
  have hr1 : (0 : ℚ) ≤ (roundNat M1.natAbs : ℚ) := Nat.cast_nonneg _
  have hn : (0 : ℚ) ≤ (M.natAbs : ℚ) := Nat.cast_nonneg _
  have hn1 : (0 : ℚ) ≤ (M1.natAbs : ℚ) := Nat.cast_nonneg _
  unfold dyadic at h
  rcases lt_or_le M 0 with hM | hM <;> rcases lt_or_le M1 0 with hM1 | hM1
  · obtain ⟨c1, c2⟩ := cast_of_neg M hM
    obtain ⟨d1, d2⟩ := cast_of_neg M1 hM1
    rw [c1, d1] at h
    rw [c2, d2]
    have := roundNat_dyadic_mono M1.natAbs M.natAbs e1 e (by linarith)
    linarith
  · obtain ⟨c1, c2⟩ := cast_of_neg M hM
    obtain ⟨d1, d2⟩ := cast_of_nonneg M1 hM1
    rw [c2, d2]
    have := mul_nonneg hr hp.le
    have := mul_nonneg hr1 hp1.le
    linarith
  · obtain ⟨c1, c2⟩ := cast_of_nonneg M hM
    obtain ⟨d1, d2⟩ := cast_of_neg M1 hM1
    rw [c1, d1] at h
    have hpos : 0 < M1.natAbs := Int.natAbs_pos.mpr (ne_of_lt hM1)
    have hq : (0 : ℚ) < (M1.natAbs : ℚ) := by exact_mod_cast hpos
    have := mul_nonneg hn hp.le
    have := mul_pos hq hp1
    linarith
  · obtain ⟨c1, c2⟩ := cast_of_nonneg M hM
    obtain ⟨d1, d2⟩ := cast_of_nonneg M1 hM1
    rw [c1, d1] at h
    rw [c2, d2]
    exact roundNat_dyadic_mono M.natAbs M1.natAbs e e1 h

theorem truncDyadic_sign (m e : Int) :
    (0 ≤ m → 0 ≤ truncDyadic m e) ∧ (m ≤ 0 → truncDyadic m e ≤ 0) := by
  unfold truncDyadic
  have hp : (0 : Int) < 2 ^ e.toNat := pow_pos (by norm_num) _
  have hn : (0 : Int) ≤ ((m.natAbs / 2 ^ (-e).toNat : Nat) : Int) := Int.natCast_nonneg _
  constructor
  · intro h
    split
    · exact mul_nonneg h hp.le
    · exact mul_nonneg (Int.sign_nonneg.mpr h) hn
  · intro h
    split
    · exact mul_nonpos_of_nonpos_of_nonneg h hp.le
    · have hs : Int.sign m ≤ 0 := by
        rcases eq_or_lt_of_le h with h0 | hlt
        · rw [h0]; simp
        · rw [Int.sign_eq_neg_one_of_neg hlt]; decide
      exact mul_nonpos_of_nonpos_of_nonneg hs hn

theorem dyadic_sign (m e : Int) :
    (0 ≤ m → 0 ≤ dyadic m e) ∧ (m < 0 → dyadic m e < 0) := by
  have hp : (0 : ℚ) < (2 : ℚ) ^ e := zpow_pos (by norm_num) e
  unfold dyadic
  constructor
  · intro h
    exact mul_nonneg (by exact_mod_cast h) hp.le
  · intro h
    exact mul_neg_of_neg_of_pos (by exact_mod_cast h) hp

/-- Truncation towards zero is monotone in the value truncated. -/
theorem truncDyadic_mono (m e m1 e1 : Int) (h : dyadic m e ≤ dyadic m1 e1) :
    truncDyadic m e ≤ truncDyadic m1 e1 := by
  obtain ⟨ha, hb⟩ := truncDyadic_bounds m e
  obtain ⟨ha1, hb1⟩ := truncDyadic_bounds m1 e1
  rcases lt_or_le m 0 with hm | hm <;> rcases lt_or_le m1 0 with hm1 | hm1
  · have hx := (dyadic_sign m e).2 hm
    have hy := (dyadic_sign m1 e1).2 hm1
    have ht1 := (truncDyadic_sign m1 e1).2 hm1.le
    have ht1q : ((truncDyadic m1 e1 : Int) : ℚ) ≤ 0 := by exact_mod_cast ht1
    rw [abs_of_nonpos ht1q, abs_of_neg hy] at hb1
    rw [abs_lt] at ha
    have hlt : ((truncDyadic m e : Int) : ℚ) < ((truncDyadic m1 e1 + 1 : Int) : ℚ) := by
      push_cast
      linarith
    have : truncDyadic m e < truncDyadic m1 e1 + 1 := by exact_mod_cast hlt
    omega
  · exact le_trans ((truncDyadic_sign m e).2 hm.le) ((truncDyadic_sign m1 e1).1 hm1)
  · have hx := (dyadic_sign m e).1 hm
    have hy := (dyadic_sign m1 e1).2 hm1
    linarith
  · have hx := (dyadic_sign m e).1 hm
    have ht := (truncDyadic_sign m e).1 hm
    have htq : (0 : ℚ) ≤ ((truncDyadic m e : Int) : ℚ) := by exact_mod_cast ht
    rw [abs_of_nonneg htq, abs_of_nonneg hx] at hb
    rw [abs_lt] at ha1
    have hlt : ((truncDyadic m e : Int) : ℚ) < ((truncDyadic m1 e1 + 1 : Int) : ℚ) := by
      push_cast
      linarith
    have : truncDyadic m e < truncDyadic m1 e1 + 1 := by exact_mod_cast hlt
    omega

/-- Within the int64 range the Duration is the truncation of the rounded product and does not
depend on the implementation. -/
theorem duration_eq (impl : F64 → Int) (m e : Int)
    (hrange : |dyadic (m * Second) e| ≤ 2 ^ 63 - 1025) :
    ∃ m1 e1 : Int, F64.round53 (m * Second) e = F64.finite m1 e1 ∧
      F64.toInt64 impl (F64.mulInt (F64.finite m e) Second) = truncDyadic m1 e1 := by
  obtain ⟨m1, e1, hR, hrel⟩ := round53_rel (m * Second) e
  obtain ⟨ht1, ht2⟩ := truncDyadic_bounds m1 e1
  have hP := abs_nonneg (dyadic (m * Second) e)
  have hd1 : |dyadic m1 e1 - dyadic (m * Second) e| < 1024 := by
    have h53 : (2 : ℚ) ^ 53 * 1024 = 2 ^ 63 := by norm_num
    nlinarith [abs_nonneg (dyadic m1 e1 - dyadic (m * Second) e)]
  have hd2 : |dyadic m1 e1| < 2 ^ 63 - 1 := by
    have := abs_sub_abs_le_abs_sub (dyadic m1 e1) (dyadic (m * Second) e)
    linarith
  have hv : |((truncDyadic m1 e1 : Int) : ℚ)| < 2 ^ 63 - 1 := lt_of_le_of_lt ht2 hd2
  have hin : -2 ^ 63 ≤ truncDyadic m1 e1 ∧ truncDyadic m1 e1 < 2 ^ 63 := by
    rw [abs_lt] at hv
    constructor
    · have h1 : ((-2 ^ 63 : Int) : ℚ) ≤ ((truncDyadic m1 e1 : Int) : ℚ) := by
        push_cast
        linarith [hv.1]
      exact_mod_cast h1
    · have h1 : ((truncDyadic m1 e1 : Int) : ℚ) < ((2 ^ 63 : Int) : ℚ) := by
        push_cast
        linarith [hv.2]
      exact_mod_cast h1
  refine ⟨m1, e1, hR, ?_⟩
  simp only [F64.mulInt, hR, F64.toInt64, if_pos hin]

/-- Within the int64 range cocoaTimestampToTime is monotone: a timestamp that is not larger
decodes to an instant that is not later. -/
theorem cocoaTimestampToTime_mono (rt : Runtime) (m e m1 e1 : Int)
    (hrange : |dyadic (m * Second) e| ≤ 2 ^ 63 - 1025)
    (hrange1 : |dyadic (m1 * Second) e1| ≤ 2 ^ 63 - 1025)
    (h : dyadic m e ≤ dyadic m1 e1) :
    (cocoaTimestampToTime rt (F64.finite m e)).nsec
      ≤ (cocoaTimestampToTime rt (F64.finite m1 e1)).nsec := by
  obtain ⟨a, ea, hRa, hDa⟩ := duration_eq rt.int64OutOfRange m e hrange
  obtain ⟨b, eb, hRb, hDb⟩ := duration_eq rt.int64OutOfRange m1 e1 hrange1
  obtain ⟨a1, ea1, hRa1, hVa⟩ := round53_value (m * Second) e
  obtain ⟨b1, eb1, hRb1, hVb⟩ := round53_value (m1 * Second) e1
  rw [hRa] at hRa1
  rw [hRb] at hRb1
  injection hRa1 with h1 h2
  injection hRb1 with h3 h4
  subst h1 h2 h3 h4
  have hs : dyadic (m * Second) e ≤ dyadic (m1 * Second) e1 := by
    unfold dyadic at h ⊢
    have hsec : (0 : ℚ) ≤ ((Second : Int) : ℚ) := by
      unfold Second
      norm_num
    push_cast
    have := mul_le_mul_of_nonneg_right h hsec
    linarith
  have hV := round53_mono (m * Second) e (m1 * Second) e1 hs
  rw [← hVa, ← hVb] at hV
  have hT := truncDyadic_mono a ea b eb hV
  simp only [cocoaTimestampToTime, Time.Add, hDa, hDb]
  omega

/-! ### Order of the records of a fixed layout -/

theorem cocoaTimestampToTime_nonneg (rt : Runtime) (m e : Int)
    (hrange : |dyadic (m * Second) e| ≤ 2 ^ 63 - 1025) :
    0 ≤ (cocoaTimestampToTime rt (F64.finite m e)).nsec := by
  have hd := duration_bounds rt.int64OutOfRange m e hrange
  have hP := abs_sub_abs_le_abs_sub
    ((F64.toInt64 rt.int64OutOfRange (F64.mulInt (F64.finite m e) Second) : Int) : ℚ)
    (dyadic (m * Second) e)
  have hD : |((F64.toInt64 rt.int64OutOfRange (F64.mulInt (F64.finite m e) Second) : Int) : ℚ)|
      < 2 ^ 63 := by linarith
  rw [abs_lt] at hD
  have hlow : -2 ^ 63 < F64.toInt64 rt.int64OutOfRange (F64.mulInt (F64.finite m e) Second) := by
    have h1 : ((-2 ^ 63 : Int) : ℚ)
        < ((F64.toInt64 rt.int64OutOfRange (F64.mulInt (F64.finite m e) Second) : Int) : ℚ) := by
      push_cast
      exact hD.1
    exact_mod_cast h1
  have href : (Date 2001 1 1 0 0 0 0).nsec = 63113904000000000000 := by rfl
  simp only [cocoaTimestampToTime, Time.Add, href]
  omega

/-- The lastCopiedAt of the record of a row: the zero time for a stored NULL, the decoded
timestamp for a stored float64. -/
theorem scannedItem_last (rt : Runtime) (db : DB) (row : List Value) (item : HistoryItem)
    (h : scannedItem rt db row = some item) :
    (storedLast row = Value.null → item.LastCopiedAt = Time.zero) ∧
    (∀ x : F64, storedLast row = Value.float64 x →
      item.LastCopiedAt = cocoaTimestampToTime rt x) := by
  unfold scannedItem at h
  cases hs : scanNullableHistoryItem rt row with
  | error e => rw [hs] at h; cases h
  | ok n =>
      rw [hs] at h
      injection h with h
      obtain ⟨c0, c1, c2, c3, c4, c5, c6, hrow, _, _, _, _, h4, _⟩ :=
        scanNullableHistoryItem_seven rt row n hs
      have hlast : storedLast row = c4 := by rw [hrow]; rfl
      have hitem : item.LastCopiedAt = (n.ToHistoryItem rt).LastCopiedAt := by
        rw [← h, ← itemOf_base rt db n]
      have hf := (ToHistoryItem_times rt n).2
      rw [hitem, hf, hlast]
      constructor
      · intro hnull
        rw [hnull] at h4
        simp only [scanNullFloat64] at h4
        injection h4 with h4
        rw [← h4]
        rfl
      · intro x hx
        rw [hx] at h4
        simp only [scanNullFloat64, convertFloat64, Except.map] at h4
        injection h4 with h4
        rw [← h4]
        rfl

theorem lastCopiedDesc_of_sortsBefore (rt : Runtime) (db : DB) (r1 r2 : List Value)
    (i1 i2 : HistoryItem) (h1 : scannedItem rt db r1 = some i1)
    (h2 : scannedItem rt db r2 = some i2) (hr1 : inRangeLast (storedLast r1))
    (hr2 : inRangeLast (storedLast r2)) (hs : sortsBefore (storedLast r1) (storedLast r2)) :
    lastCopiedDesc i1 i2 := by
  obtain ⟨n1, f1⟩ := scannedItem_last rt db r1 i1 h1
  obtain ⟨n2, f2⟩ := scannedItem_last rt db r2 i2 h2
  unfold lastCopiedDesc
  rcases hr2 with hnull2 | ⟨m2, e2, hv2, hb2⟩
  · rw [n2 hnull2]
    rcases hr1 with hnull1 | ⟨m1, e1, hv1, hb1⟩
    · rw [n1 hnull1]
    · rw [f1 _ hv1]
      exact cocoaTimestampToTime_nonneg rt m1 e1 hb1
  · rcases hr1 with hnull1 | ⟨m1, e1, hv1, hb1⟩
    · rw [hnull1, hv2] at hs
      exact absurd hs (by simp [sortsBefore])
    · rw [hv1, hv2] at hs
      rw [f1 _ hv1, f2 _ hv2]
      exact cocoaTimestampToTime_mono rt m2 e2 m1 e1 hb2 hb1 (by simpa [sortsBefore] using hs)

theorem pairwise_lastCopiedDesc (rt : Runtime) (db : DB) (stored : List (List Value))
    (hrange : ∀ row ∈ stored, inRangeLast (storedLast row))
    (hdesc : stored.Pairwise (fun r1 r2 => sortsBefore (storedLast r1) (storedLast r2))) :
    (stored.filterMap (scannedItem rt db)).Pairwise lastCopiedDesc := by
  induction stored with
  | nil => simp
  | cons r rest ih =>
      rw [List.pairwise_cons] at hdesc
      have hrest := ih (fun row hrow => hrange row (List.mem_cons_of_mem _ hrow)) hdesc.2
      cases hf : scannedItem rt db r with
      | none => simpa [List.filterMap_cons, hf] using hrest
      | some i =>
          simp only [List.filterMap_cons, hf, List.pairwise_cons]
          refine ⟨?_, hrest⟩
          intro i2 hi2
          obtain ⟨r2, hr2, hf2⟩ := List.mem_filterMap.mp hi2
          exact lastCopiedDesc_of_sortsBefore rt db r r2 i i2 hf hf2
            (hrange r (List.mem_cons_self _ _)) (hrange r2 (List.mem_cons_of_mem _ hr2))
            (hdesc.1 r2 hr2)

/-! ## Theorems -/

/-- C1: GetRecentItems tries the standard layout, then the alternative layout, then
dynamic discovery.  When the standard statement executes, its records are the result
(also when there are none) and nothing but content statements follow it; when it fails
and the alternative statement executes, likewise for the alternative; when both fail the
outcome is that of tryDynamicSchema; and an error result means that both fixed statements
failed and that the error is the one of tryDynamicSchema. -/
theorem GetRecentItems_first_success (rt : Runtime) (db : DB) (limit : Int) :
    (∀ rows, db.Query (standardQuery limit) [] = Except.ok rows →
      ∃ calls, GetRecentItems rt db limit
          = (Except.ok (scanHistoryLoop rt db rows.rows [] []).1,
              Call.Query (standardQuery limit) [] :: calls)
        ∧ ∀ c ∈ calls, c.isContent = true) ∧
    (∀ e rows, db.Query (standardQuery limit) [] = Except.error e →
      db.Query (alternativeQuery limit) [] = Except.ok rows →
      ∃ calls, GetRecentItems rt db limit
          = (Except.ok (scanHistoryLoop rt db rows.rows [] []).1,
              Call.Query (standardQuery limit) [] :: Call.Query (alternativeQuery limit) []
                :: calls)
        ∧ ∀ c ∈ calls, c.isContent = true) ∧
    (∀ e1 e2, db.Query (standardQuery limit) [] = Except.error e1 →
      db.Query (alternativeQuery limit) [] = Except.error e2 →
      GetRecentItems rt db limit
        = ((tryDynamicSchema rt db limit).1,
            Call.Query (standardQuery limit) [] :: Call.Query (alternativeQuery limit) []
              :: (tryDynamicSchema rt db limit).2)) ∧
    (∀ e, (GetRecentItems rt db limit).1 = Except.error e →
      (∃ e1, db.Query (standardQuery limit) [] = Except.error e1) ∧
      (∃ e2, db.Query (alternativeQuery limit) [] = Except.error e2) ∧
      (tryDynamicSchema rt db limit).1 = Except.error e) := by
  refine ⟨?_, ?_, ?_, ?_⟩
  · intro rows h
    refine ⟨(scanHistoryLoop rt db rows.rows [] []).2, ?_, ?_⟩
    · simp [GetRecentItems, tryStandardSchema_ok rt db limit rows h]
    · exact scanHistoryItems_calls rt db rows
  · intro e rows h1 h2
    refine ⟨(scanHistoryLoop rt db rows.rows [] []).2, ?_, ?_⟩
    · simp [GetRecentItems, tryStandardSchema_error rt db limit e h1,
        tryAlternativeSchema_ok rt db limit rows h2]
    · exact scanHistoryItems_calls rt db rows
  · intro e1 e2 h1 h2
    simp [GetRecentItems, tryStandardSchema_error rt db limit e1 h1,
      tryAlternativeSchema_error rt db limit e2 h2]
  · intro e he
    cases h1 : db.Query (standardQuery limit) [] with
    | ok rows =>
        simp [GetRecentItems, tryStandardSchema_ok rt db limit rows h1] at he
    | error e1 =>
        cases h2 : db.Query (alternativeQuery limit) [] with
        | ok rows =>
            simp [GetRecentItems, tryStandardSchema_error rt db limit e1 h1,
              tryAlternativeSchema_ok rt db limit rows h2] at he
        | error e2 =>
            simp [GetRecentItems, tryStandardSchema_error rt db limit e1 h1,
              tryAlternativeSchema_error rt db limit e2 h2] at he
            exact ⟨⟨e1, rfl⟩, ⟨e2, rfl⟩, he⟩

/-- Witness of C1 on a store in the alternative layout with no record: the standard statement
fails, the alternative one executes, and the empty list is the result. -/
theorem GetRecentItems_first_success_witness :
    ∃ calls, GetRecentItems sampleRuntime emptyAlternativeStore 0
        = (Except.ok [],
            Call.Query (standardQuery 0) [] :: Call.Query (alternativeQuery 0) [] :: calls)
      ∧ ∀ c ∈ calls, c.isContent = true :=
  (GetRecentItems_first_success sampleRuntime emptyAlternativeStore 0).2.1 "no such table"
    { Columns := Except.ok ["Z_PK", "ZTITLE", "ZPIN", "ZFIRSTCOPIEDAT",
        "ZLASTCOPIEDAT", "ZNUMBEROFCOPIES", "ZAPPLICATION"], rows := [] }
    (by rfl) (by rfl)

/-- C2: ToHistoryItem keeps the ID; a field whose Valid flag is false holds the zero value
of its type (empty string, zero count, zero time) and a valid field holds the stored value,
each timestamp decoded by cocoaTimestampToTime; the contents are empty. -/
theorem ToHistoryItem_fields (rt : Runtime) (n : NullableHistoryItem) :
    (n.ToHistoryItem rt).ID = n.ID ∧
    (n.ToHistoryItem rt).Title = (if n.Title.Valid then n.Title.String else "") ∧
    (n.ToHistoryItem rt).Pin = (if n.Pin.Valid then n.Pin.String else "") ∧
    (n.ToHistoryItem rt).FirstCopiedAt
      = (if n.FirstCopiedAt.Valid then cocoaTimestampToTime rt n.FirstCopiedAt.Float64
         else Time.zero) ∧
    (n.ToHistoryItem rt).LastCopiedAt
      = (if n.LastCopiedAt.Valid then cocoaTimestampToTime rt n.LastCopiedAt.Float64
         else Time.zero) ∧
    (n.ToHistoryItem rt).NumberOfCopies
      = (if n.NumberOfCopies.Valid then n.NumberOfCopies.Int64 else 0) ∧
    (n.ToHistoryItem rt).Application
      = (if n.Application.Valid then n.Application.String else "") ∧
    (n.ToHistoryItem rt).Contents = [] := by
  unfold NullableHistoryItem.ToHistoryItem
  refine ⟨?_, ?_, ?_, ?_, ?_, ?_, ?_, ?_⟩ <;>
    cases n.Title.Valid <;> cases n.Pin.Valid <;> cases n.FirstCopiedAt.Valid <;>
    cases n.LastCopiedAt.Valid <;> cases n.NumberOfCopies.Valid <;>
    cases n.Application.Valid <;> rfl

/-- C3, at the failing input: a table that declares pin before title is readable only through
dynamic discovery and every stored row can be read by field name (titles "hello" and "world",
pins "work" and "home"); GetAllItems returns two records whose titles are the stored pins and
whose pins are the stored titles. -/
theorem GetAllItems_dynamic_swapped_columns :
    DynamicOnly sampleRuntime swappedStore swappedTable ∧
    swappedTable.rows.map (fun row => swappedTable.fieldValue sampleRuntime row "title")
      = [Value.string "hello", Value.string "world"] ∧
    swappedTable.rows.map (fun row => swappedTable.fieldValue sampleRuntime row "pin")
      = [Value.string "work", Value.string "home"] ∧
    (swappedTable.rows.map (swappedTable.recordByName sampleRuntime swappedStore)).map
        (Option.map (fun item => (item.Title, item.Pin)))
      = [some ("hello", "work"), some ("world", "home")] ∧
    (GetAllItems sampleRuntime swappedStore).1.toOption.map
        (List.map (fun item => (item.Title, item.Pin)))
      = some [("work", "hello"), ("home", "world")] :=
  ⟨⟨⟨_, rfl⟩, ⟨_, rfl⟩, rfl, ⟨_, rfl, rfl⟩, ⟨_, rfl, rfl⟩⟩, by rfl, by rfl, by rfl, by rfl⟩

/-- Dynamic discovery on a table in canonical column order: for a store readable only through
dynamic discovery whose table declares the matching columns in the order of the canonical
field names, one per name (the i-th selected column is the discovered column of the i-th
name), GetAllItems returns, in the order in which the store returns the rows, the record of
every row read by field name; these are as many records as rows when every row can be read
so. -/
theorem GetAllItems_dynamic_canonical_order (rt : Runtime) (db : DB) (t : Table)
    (h : DynamicOnly rt db t)
    (hcanon : standardNames.map (discoveredColumn rt t.cols) = (discovered rt t.cols).map some) :
    (GetAllItems rt db).1 = Except.ok (t.rows.filterMap (t.recordByName rt db)) ∧
    ((∀ row ∈ t.rows, ∃ item, t.recordByName rt db row = some item) →
      (t.rows.filterMap (t.recordByName rt db)).length = t.rows.length) := by
  constructor
  · obtain ⟨e1, h1⟩ := h.standard_fails
    obtain ⟨e2, h2⟩ := h.alternative_fails
    obtain ⟨probe, hp, hc⟩ := h.probe
    obtain ⟨res, hq, hr⟩ := h.select
    have hne : discovered rt t.cols ≠ [] := by
      intro hnil
      rw [hnil] at hcanon
      simp [standardNames, columnsNeeded] at hcanon
    have hdyn := tryDynamicSchema_executes rt db 0 probe res t.cols h.table_exists hp hc hne hq
    have hrows : res.rows.filterMap (scannedItem rt db)
        = t.rows.filterMap (t.recordByName rt db) := by
      rw [hr, List.filterMap_map]
      congr 1
      funext row
      simp only [Function.comp, Table.recordByName, fieldValues_eq_project rt t row hcanon]
    simp [GetAllItems, tryStandardSchema_error rt db 0 e1 h1,
      tryAlternativeSchema_error rt db 0 e2 h2, hdyn, hrows]
  · exact filterMap_length_of_all_some _ _

/-- Dynamic discovery on a concrete table that declares its columns in canonical order, the
key column being Zid. -/
theorem GetAllItems_dynamic_canonical_order_witness :
    (GetAllItems sampleRuntime canonicalStore).1.toOption.map
        (List.map (fun item => (item.ID, item.Title, item.Pin, item.NumberOfCopies)))
      = some [(1, "hello", "work", 3), (2, "world", "home", 1)] := by
  have h := (GetAllItems_dynamic_canonical_order sampleRuntime canonicalStore canonicalTable
    ⟨⟨_, rfl⟩, ⟨_, rfl⟩, rfl, ⟨_, rfl, rfl⟩, ⟨_, rfl, rfl⟩⟩ (by rfl)).1
  rw [h]
  rfl

/-- C4: when both fixed-layout statements fail and either the HistoryItem table is absent or
no column of the probed table matches a canonical field name or its Z-prefixed form,
GetRecentItems and GetAllItems return an error. -/
theorem unrecognized_schema_is_error (rt : Runtime) (db : DB)
    (hnone : db.QueryRowBool tableExistsQuery = Except.ok false ∨
      ∀ rows cols, db.Query probeQuery [] = Except.ok rows → rows.Columns = Except.ok cols →
        ∀ col ∈ cols, ∀ name ∈ standardNames, matchesField rt col name = false) :
    (∀ limit e1 e2, db.Query (standardQuery limit) [] = Except.error e1 →
      db.Query (alternativeQuery limit) [] = Except.error e2 →
      ∃ e, (GetRecentItems rt db limit).1 = Except.error e) ∧
    (∀ e1 e2, db.Query (standardQuery 0) [] = Except.error e1 →
      db.Query (alternativeQuery 0) [] = Except.error e2 →
      ∃ e, (GetAllItems rt db).1 = Except.error e) := by
  have hdyn : ∀ limit, ∃ e, (tryDynamicSchema rt db limit).1 = Except.error e := by
    intro limit
    rcases hnone with h | h
    · exact ⟨_, tryDynamicSchema_absent rt db limit h⟩
    · exact tryDynamicSchema_no_match rt db limit h
  constructor
  · intro limit e1 e2 h1 h2
    obtain ⟨e, he⟩ := hdyn limit
    refine ⟨e, ?_⟩
    simp [GetRecentItems, tryStandardSchema_error rt db limit e1 h1,
      tryAlternativeSchema_error rt db limit e2 h2, he]
  · intro e1 e2 h1 h2
    obtain ⟨e, he⟩ := hdyn 0
    refine ⟨e, ?_⟩
    simp [GetAllItems, tryStandardSchema_error rt db 0 e1 h1,
      tryAlternativeSchema_error rt db 0 e2 h2, he]

/-- Witness of C4 on a store whose HistoryItem table has the columns foo and bar. -/
theorem unrecognized_schema_is_error_witness :
    (∃ e, (GetRecentItems sampleRuntime foreignStore 3).1 = Except.error e) ∧
    (∃ e, (GetAllItems sampleRuntime foreignStore).1 = Except.error e) :=
  have h := unrecognized_schema_is_error sampleRuntime foreignStore
    (Or.inr (by
      intro rows cols h1 h2
      have hr : rows = { Columns := Except.ok ["foo", "bar"], rows := [] } := by
        have h3 : (Except.ok { Columns := Except.ok ["foo", "bar"], rows := [] } :
            Except String Rows) = Except.ok rows := h1
        injection h3 with h4
        exact h4.symm
      subst hr
      injection h2 with h5
      subst h5
      decide))
  ⟨h.1 3 "no such column" "no such column" (by rfl) (by rfl),
   h.2 "no such column" "no such column" (by rfl) (by rfl)⟩

/-- C5: the SELECT column list of dynamic discovery is the sub-list of the discovered names,
in their order and each at most once, that equal ignoring case a canonical field name or that
name prefixed with "Z"; the order in which the map is visited plays no part. -/
theorem selectCols_eq_filter (rt : Runtime) (cols : List String) (i : Nat) :
    selectColsLoop rt cols i []
      = cols.filter (fun col =>
          standardNames.any (fun name =>
            rt.EqualFold col name || rt.EqualFold col ("Z" ++ name))) ∧
    (selectColsLoop rt cols i []).Sublist cols := by
  have h := selectColsLoop_eq rt cols i []
  simp only [List.nil_append] at h
  have h2 : (fun col => standardNames.any (matchesField rt col))
      = (fun col => standardNames.any (fun name =>
          rt.EqualFold col name || rt.EqualFold col ("Z" ++ name))) := rfl
  rw [h2] at h
  rw [h]
  exact ⟨rfl, List.filter_sublist _⟩

/-- C6: scanHistoryItems returns no error; its records are, in result-set order, those of the
rows that scan, a row whose scan fails being skipped wherever it stands. -/
theorem scanHistoryItems_skips_failed_rows (rt : Runtime) (db : DB) (rows : Rows) :
    (scanHistoryItems rt db rows).1 = Except.ok (rows.rows.filterMap (scannedItem rt db)) ∧
    (rows.rows.filterMap (scannedItem rt db)).length
      = (rows.rows.filter (fun row => (scanNullableHistoryItem rt row).isOk)).length := by
  constructor
  · simp [scanHistoryItems, scanHistoryLoop_items]
  · induction rows.rows with
    | nil => rfl
    | cons row rest ih =>
        cases hs : scanNullableHistoryItem rt row with
        | error e => simp [List.filterMap_cons, List.filter_cons, scannedItem, hs, ih, Except.isOk,
            Except.toBool]
        | ok n => simp [List.filterMap_cons, List.filter_cons, scannedItem, hs, ih, Except.isOk,
            Except.toBool]

/-- C7: when every row scans (into the list ns) and GetItemContents fails for the id of the
record at position k and for no other record, scanHistoryItems returns one record per row;
each is the promoted row, the record at position k has empty contents and every other record
carries the blocks GetItemContents returns for its id. -/
theorem scanHistoryItems_one_content_failure (rt : Runtime) (db : DB) (rows : Rows)
    (ns : List NullableHistoryItem) (k : Nat) (nk : NullableHistoryItem)
    (hscan : rows.rows.map (scanNullableHistoryItem rt) = ns.map Except.ok)
    (hk : ns[k]? = some nk)
    (hfail : ∃ e, (GetItemContents rt db nk.ID).1 = Except.error e)
    (hothers : ∀ i n, i ≠ k → ns[i]? = some n →
      ∃ cs, (GetItemContents rt db n.ID).1 = Except.ok cs) :
    ∃ items, (scanHistoryItems rt db rows).1 = Except.ok items ∧
      items.length = rows.rows.length ∧
      ∀ i n, ns[i]? = some n →
        ∃ item, items[i]? = some item ∧
          { item with Contents := [] } = n.ToHistoryItem rt ∧
          (i = k → item.Contents = []) ∧
          (i ≠ k → (GetItemContents rt db n.ID).1 = Except.ok item.Contents) := by
  refine ⟨ns.map (itemOf rt db), ?_, ?_, ?_⟩
  · simp [scanHistoryItems, scanHistoryLoop_items, filterMap_scannedItem rt db rows.rows ns hscan]
  · have h := congrArg List.length hscan
    simpa using h.symm
  · intro i n hi
    refine ⟨itemOf rt db n, by simp [List.getElem?_map, hi], itemOf_base rt db n, ?_, ?_⟩
    · intro hik
      subst hik
      rw [hk] at hi
      cases hi
      obtain ⟨e, he⟩ := hfail
      unfold itemOf
      rw [ToHistoryItem_id, he]
      exact ToHistoryItem_contents rt _
    · intro hik
      obtain ⟨cs, hcs⟩ := hothers i n hik hi
      unfold itemOf
      rw [ToHistoryItem_id, hcs]

/-- Witness of C7 on three rows, the content statement failing for item 2 only. -/
theorem scanHistoryItems_one_content_failure_witness :
    ∃ items, (scanHistoryItems sampleRuntime oneContentFailureStore threeRows).1 = Except.ok items ∧
      items.length = threeRows.rows.length ∧
      ∀ i n, threeScanned[i]? = some n →
        ∃ item, items[i]? = some item ∧
          { item with Contents := [] } = n.ToHistoryItem sampleRuntime ∧
          (i = 1 → item.Contents = []) ∧
          (i ≠ 1 → (GetItemContents sampleRuntime oneContentFailureStore n.ID).1
            = Except.ok item.Contents) :=
  scanHistoryItems_one_content_failure sampleRuntime oneContentFailureStore threeRows
    threeScanned 1 _ (by rfl) (by rfl) ⟨_, by rfl⟩
    (by
      intro i n hik hi
      match i, hik, hi with
      | 0, _, hi => cases hi; exact ⟨_, by rfl⟩
      | 1, hik, _ => exact absurd rfl hik
      | 2, _, hi => cases hi; exact ⟨_, by rfl⟩
      | i + 3, _, hi => simp [threeScanned] at hi)

/-- C8, counterexample: the primary content statement executes for item 7 and returns one
row, whose type is NULL; the row does not scan and GetItemContents returns an error, without
trying the alternate layout. -/
theorem GetItemContents_error_after_executed_layout :
    (∃ rows, nullTypeStore.Query contentQueryStandard [7] = Except.ok rows) ∧
    GetItemContents sampleRuntime nullTypeStore 7
      = (Except.error "converting NULL to string is unsupported",
          [Call.Query contentQueryStandard [7]]) :=
  ⟨⟨_, rfl⟩, by rfl⟩

/-- C8, amended: GetItemContents tries the primary layout and, when that statement fails to
execute, the alternate one.  It returns the error of the alternate statement when both
fail; otherwise it reads the rows of the statement that executed: when all of them scan it
returns their blocks in storage iteration order, and when one of them does not scan it
returns an error. -/
theorem GetItemContents_layouts (rt : Runtime) (db : DB) (itemID : Int) :
    (∀ rows, db.Query contentQueryStandard [itemID] = Except.ok rows →
      GetItemContents rt db itemID
        = (scanContents rt rows.rows [], [Call.Query contentQueryStandard [itemID]])) ∧
    (∀ e rows, db.Query contentQueryStandard [itemID] = Except.error e →
      db.Query contentQueryAlternative [itemID] = Except.ok rows →
      GetItemContents rt db itemID
        = (scanContents rt rows.rows [],
            [Call.Query contentQueryStandard [itemID],
             Call.Query contentQueryAlternative [itemID]])) ∧
    (∀ e1 e2, db.Query contentQueryStandard [itemID] = Except.error e1 →
      db.Query contentQueryAlternative [itemID] = Except.error e2 →
      GetItemContents rt db itemID
        = (Except.error e2,
            [Call.Query contentQueryStandard [itemID],
             Call.Query contentQueryAlternative [itemID]])) ∧
    (∀ (rows : List (List Value)) (cs : List Content),
      rows.map (scanContent rt) = cs.map Except.ok →
      scanContents rt rows [] = Except.ok cs) ∧
    (∀ (rows : List (List Value)) row e, row ∈ rows → scanContent rt row = Except.error e →
      ∃ e1, scanContents rt rows [] = Except.error e1) := by
  refine ⟨?_, ?_, ?_, ?_, ?_⟩
  · intro rows h
    simp [GetItemContents, h]
  · intro e rows h1 h2
    simp [GetItemContents, h1, h2]
  · intro e1 e2 h1 h2
    simp [GetItemContents, h1, h2]
  · intro rows cs h
    simpa using scanContents_acc rt rows [] cs h
  · intro rows row e hrow he
    exact scanContents_fail rt rows [] ⟨row, hrow, e, he⟩

/-- Witness of C8 (amended) on a store whose primary content table answers for item 1 with
one text block. -/
theorem GetItemContents_layouts_witness :
    GetItemContents sampleRuntime oneContentFailureStore 1
      = (Except.ok [{ Type_ := "public.utf8-plain-text", Value := [104, 105] }],
          [Call.Query contentQueryStandard [1]]) :=
  (GetItemContents_layouts sampleRuntime oneContentFailureStore 1).1
    { Columns := Except.ok ["type", "value"],
      rows := [[Value.string "public.utf8-plain-text", Value.bytes [104, 105]]] } (by rfl)

/-- C9, counterexample: a block with the text tag and the payload 0xff 0x68 is emitted with
the value U+FFFD "h", whose bytes are ef bf bd 68 and not the payload. -/
theorem MarshalJSON_text_invalid_utf8 :
    invalidTextContent.MarshalJSON
      = Except.ok [("type", "public.utf8-plain-text"), ("value", "�h")] ∧
    utf8Bytes "�h" = [239, 191, 189, 104] ∧
    utf8Bytes "�h" ≠ invalidTextContent.Value := by
  refine ⟨by rfl, by rfl, by decide⟩

/-- C9, amended: MarshalJSON emits an object with exactly the members type and value.  For
the type "public.utf8-plain-text" the value is the payload read as UTF-8, every byte that
does not start a valid sequence replaced by U+FFFD; it is the payload itself exactly when the
payload is valid UTF-8.  For every other type the value is the standard base64 encoding of
the payload, and decoding that base64 gives back the payload. -/
theorem MarshalJSON_value (c : Content) :
    ∃ value, c.MarshalJSON = Except.ok [("type", c.Type_), ("value", value)] ∧
      (c.Type_ = "public.utf8-plain-text" →
        value = utf8Lossy c.Value ∧
        ((∃ s : String, c.Value = utf8Bytes s) ↔ utf8Bytes value = c.Value)) ∧
      (c.Type_ ≠ "public.utf8-plain-text" →
        value = EncodeToString c.Value ∧ DecodeString value = some c.Value) := by
  by_cases h : c.Type_ = "public.utf8-plain-text"
  · refine ⟨utf8Lossy c.Value, ?_, fun _ => ⟨rfl, ?_⟩, fun h2 => absurd h h2⟩
    · simp only [Content.MarshalJSON, jsonMarshal, if_pos h, utf8Lossy_utf8Bytes]
    · constructor
      · rintro ⟨s, hs⟩
        rw [hs, utf8Lossy_utf8Bytes]
      · intro hv
        exact ⟨utf8Lossy c.Value, hv.symm⟩
  · refine ⟨EncodeToString c.Value, ?_, fun h2 => absurd h2 h, fun _ => ⟨rfl, ?_⟩⟩
    · simp only [Content.MarshalJSON, jsonMarshal, if_neg h, utf8Lossy_utf8Bytes]
    · exact decodeList_encodeList c.Value

/-- Witness of C9 (amended) on the text block "hi" and on a three-byte block of type
public.png. -/
theorem MarshalJSON_value_witness :
    (∃ value, hiContent.MarshalJSON
        = Except.ok [("type", "public.utf8-plain-text"), ("value", value)] ∧
      value = "hi" ∧ utf8Bytes value = [104, 105]) ∧
    (∃ value, pngContent.MarshalJSON = Except.ok [("type", "public.png"), ("value", value)] ∧
      value = "AP8Q" ∧ DecodeString value = some [0, 255, 16]) := by
  constructor
  · obtain ⟨value, h1, h2, _⟩ := MarshalJSON_value hiContent
    obtain ⟨h3, h4⟩ := h2 rfl
    exact ⟨value, h1, h3, h4.mp ⟨"hi", by rfl⟩⟩
  · obtain ⟨value, h1, _, h3⟩ := MarshalJSON_value pngContent
    exact ⟨value, h1, h3 (by decide)⟩

/-- C10, counterexample: the instant 10000000000 seconds after the reference (in the year
2317) is encoded exactly by the float64 10000000000, whose product with time.Second exceeds
the int64 range; on amd64 it decodes to 2 ^ 63 nanoseconds before the reference.  The whole
number of seconds 4611686019 (in the year 2147) decodes to 512 nanoseconds more than that
many seconds after the reference. -/
theorem cocoaTimestampToTime_out_of_range_and_inexact :
    (cocoaTimestampToTime sampleRuntime (F64.finite 10000000000 0)).nsec
      = (Date 2001 1 1 0 0 0 0).nsec - 2 ^ 63 ∧
    (cocoaTimestampToTime sampleRuntime (F64.finite 4611686019 0)).nsec
      = (Date 2001 1 1 0 0 0 0).nsec + 4611686019 * 1000000000 + 512 := by
  constructor
  · have h := round53_of_log2 (10000000000 * Second) 0 63 (by decide) (by decide) (by decide)
    simp only [cocoaTimestampToTime, F64.mulInt, h, Time.Add]
    decide
  · have h := round53_of_log2 (4611686019 * Second) 0 62 (by decide) (by decide) (by decide)
    simp only [cocoaTimestampToTime, F64.mulInt, h, Time.Add]
    decide

/-- C10, amended: for a finite float64 timestamp whose product with time.Second has a
magnitude of at most 2 ^ 63 - 1025 nanoseconds (instants within about 292 years of the
reference), cocoaTimestampToTime returns an instant that lies within 1025 nanoseconds of
that many seconds after 2001-01-01T00:00:00 UTC, hence within one second of every instant
that the timestamp encodes with an error of at most one second less 1025 nanoseconds; the
value 0 decodes to the reference itself; and a whole number s of seconds with
|s| * 10 ^ 9 < 2 ^ 62 decodes to exactly s seconds after the reference. -/
theorem cocoaTimestampToTime_accuracy (rt : Runtime) :
    (∀ m e : Int, |dyadic (m * Second) e| ≤ 2 ^ 63 - 1025 →
      |(((cocoaTimestampToTime rt (F64.finite m e)).nsec - (Date 2001 1 1 0 0 0 0).nsec : Int) : ℚ)
          - dyadic (m * Second) e| < 1025 ∧
      ∀ t : Time,
        |((t.nsec - (Date 2001 1 1 0 0 0 0).nsec : Int) : ℚ) - dyadic (m * Second) e|
            ≤ 10 ^ 9 - 1025 →
        |(cocoaTimestampToTime rt (F64.finite m e)).nsec - t.nsec| < 10 ^ 9) ∧
    (∀ e : Int, cocoaTimestampToTime rt (F64.finite 0 e) = Date 2001 1 1 0 0 0 0) ∧
    (∀ s : Int, |s| * 10 ^ 9 < 2 ^ 62 →
      cocoaTimestampToTime rt (F64.finite s 0) = (Date 2001 1 1 0 0 0 0).Add (s * Second)) := by
  refine ⟨?_, ?_, ?_⟩
  · intro m e hrange
    have hd := duration_bounds rt.int64OutOfRange m e hrange
    have hns : (cocoaTimestampToTime rt (F64.finite m e)).nsec - (Date 2001 1 1 0 0 0 0).nsec
        = F64.toInt64 rt.int64OutOfRange (F64.mulInt (F64.finite m e) Second) := by
      simp only [cocoaTimestampToTime, Time.Add]
      ring
    refine ⟨by rw [hns]; exact hd, ?_⟩
    intro t ht
    have hsplit : (((cocoaTimestampToTime rt (F64.finite m e)).nsec - t.nsec : Int) : ℚ)
        = (((F64.toInt64 rt.int64OutOfRange (F64.mulInt (F64.finite m e) Second) : Int) : ℚ)
            - dyadic (m * Second) e)
          - (((t.nsec - (Date 2001 1 1 0 0 0 0).nsec : Int) : ℚ) - dyadic (m * Second) e) := by
      rw [← hns]
      push_cast
      ring
    have hq : |(((cocoaTimestampToTime rt (F64.finite m e)).nsec - t.nsec : Int) : ℚ)|
        < 10 ^ 9 := by
      rw [hsplit]
      have htri := abs_sub
        (((F64.toInt64 rt.int64OutOfRange (F64.mulInt (F64.finite m e) Second) : Int) : ℚ)
            - dyadic (m * Second) e)
        (((t.nsec - (Date 2001 1 1 0 0 0 0).nsec : Int) : ℚ) - dyadic (m * Second) e)
      linarith
    have hcast : ((|(cocoaTimestampToTime rt (F64.finite m e)).nsec - t.nsec| : Int) : ℚ)
        < ((10 ^ 9 : Int) : ℚ) := by
      rw [Int.cast_abs]
      push_cast
      push_cast at hq
      exact hq
    exact_mod_cast hcast
  · intro e
    have hmul : F64.mulInt (F64.finite 0 e) Second = F64.finite 0 e := by
      simp [F64.mulInt, F64.round53]
    have hin : (-2 ^ 63 : Int) ≤ 0 ∧ (0 : Int) < 2 ^ 63 := by decide
    have ht : truncDyadic 0 e = 0 := by simp [truncDyadic]
    simp only [cocoaTimestampToTime, hmul, F64.toInt64, ht, if_pos hin, Time.Add, add_zero]
  · intro s hs
    simp only [cocoaTimestampToTime, duration_whole_seconds rt.int64OutOfRange s hs]

/-- Witness of C10 (amended): the timestamp 1.5 decodes to within 1025 nanoseconds of a second
and a half after the reference, and the timestamp 86400 to exactly one day after it. -/
theorem cocoaTimestampToTime_accuracy_witness :
    |(((cocoaTimestampToTime sampleRuntime (F64.finite 3 (-1))).nsec
          - (Date 2001 1 1 0 0 0 0).nsec : Int) : ℚ) - dyadic (3 * Second) (-1)| < 1025 ∧
    cocoaTimestampToTime sampleRuntime (F64.finite 86400 0)
      = (Date 2001 1 1 0 0 0 0).Add (86400 * Second) :=
  ⟨((cocoaTimestampToTime_accuracy sampleRuntime).1 3 (-1)
      (by norm_num [dyadic, Second, abs_of_pos])).1,
   (cocoaTimestampToTime_accuracy sampleRuntime).2.2 86400 (by decide)⟩

/-- C11: GetAllItems returns the outcome of GetRecentItems with limit 0, records, error and
statements issued alike; with limit 0 no statement of the three tiers carries a LIMIT
clause. -/
theorem GetAllItems_eq_GetRecentItems_zero (rt : Runtime) (db : DB) :
    GetAllItems rt db = GetRecentItems rt db 0 ∧
    standardQuery 0
      = "\n\t\tSELECT id, title, pin, firstCopiedAt, lastCopiedAt, numberOfCopies, application" ++
        "\n\t\tFROM HistoryItem\n\t\tORDER BY lastCopiedAt DESC\n\t" ∧
    alternativeQuery 0
      = "\n\t\tSELECT Z_PK, ZTITLE, ZPIN, ZFIRSTCOPIEDAT, ZLASTCOPIEDAT, ZNUMBEROFCOPIES, ZAPPLICATION" ++
        "\n\t\tFROM ZHISTORYITEM\n\t\tORDER BY ZLASTCOPIEDAT DESC\n\t" ∧
    ∀ selectCols : List String,
      dynamicQuery selectCols 0
        = "\n\t\tSELECT " ++ ", ".intercalate selectCols ++
          "\n\t\tFROM HistoryItem\n\t\tORDER BY lastCopiedAt DESC, firstCopiedAt DESC\n\t" := by
  refine ⟨rfl, ?_, ?_, ?_⟩
  · simp [standardQuery, withLimit]
  · simp [alternativeQuery, withLimit]
  · intro selectCols
    simp [dynamicQuery, withLimit]

/-- C13: a row scans only when it has exactly seven columns, which go in order to id, title,
pin, firstCopiedAt, lastCopiedAt, numberOfCopies and application.  Hence when dynamic
discovery matches at least one column but not seven and its statement executes, returning
rows with one value per selected column, every row fails to scan and tryDynamicSchema
returns an empty list with no error, however many rows there are. -/
theorem tryDynamicSchema_not_seven_columns (rt : Runtime) (db : DB) (limit : Int)
    (probe res : Rows) (cols : List String)
    (h0 : db.QueryRowBool tableExistsQuery = Except.ok true)
    (h1 : db.Query probeQuery [] = Except.ok probe)
    (h2 : probe.Columns = Except.ok cols)
    (hne : selectColsLoop rt cols 0 [] ≠ [])
    (h7 : (selectColsLoop rt cols 0 []).length ≠ 7)
    (h4 : db.Query (dynamicQuery (selectColsLoop rt cols 0 []) limit) [] = Except.ok res)
    (hw : ∀ row ∈ res.rows, row.length = (selectColsLoop rt cols 0 []).length) :
    (∀ row n, scanNullableHistoryItem rt row = Except.ok n →
      ∃ c0 c1 c2 c3 c4 c5 c6, row = [c0, c1, c2, c3, c4, c5, c6] ∧
        convertInt rt c0 = Except.ok n.ID ∧ scanNullString rt c1 = Except.ok n.Title ∧
        scanNullString rt c2 = Except.ok n.Pin ∧
        scanNullFloat64 rt c3 = Except.ok n.FirstCopiedAt ∧
        scanNullFloat64 rt c4 = Except.ok n.LastCopiedAt ∧
        scanNullInt64 rt c5 = Except.ok n.NumberOfCopies ∧
        scanNullString rt c6 = Except.ok n.Application) ∧
    (∀ row ∈ res.rows, ∃ e, scanNullableHistoryItem rt row = Except.error e) ∧
    (tryDynamicSchema rt db limit).1 = Except.ok [] := by
  rw [selectColsLoop_discovered] at hne h7 h4 hw
  refine ⟨scanNullableHistoryItem_seven rt, ?_, ?_⟩
  · intro row hrow
    cases hs : scanNullableHistoryItem rt row with
    | error e => exact ⟨e, rfl⟩
    | ok n =>
        obtain ⟨c0, c1, c2, c3, c4, c5, c6, hr, _⟩ := scanNullableHistoryItem_seven rt row n hs
        have hlen := hw row hrow
        rw [hr] at hlen
        exact absurd hlen.symm h7
  · rw [tryDynamicSchema_executes rt db limit probe res cols h0 h1 h2 hne h4]
    congr 1
    rw [List.filterMap_eq_nil_iff]
    intro row hrow
    exact scannedItem_not_seven rt db row (by rw [hw row hrow]; exact h7)

/-- Witness of C13 on a store whose HistoryItem table has no pin column and holds two rows. -/
theorem tryDynamicSchema_not_seven_columns_witness :
    (∀ row ∈ sixColumnRows.rows,
      ∃ e, scanNullableHistoryItem sampleRuntime row = Except.error e) ∧
    (tryDynamicSchema sampleRuntime sixColumnStore 0).1 = Except.ok [] :=
  (tryDynamicSchema_not_seven_columns sampleRuntime sixColumnStore 0
    { Columns := sixColumnRows.Columns, rows := sixColumnRows.rows.take 1 } sixColumnRows
    ["id", "title", "firstCopiedAt", "lastCopiedAt", "numberOfCopies", "application"]
    (by rfl) (by rfl) (by rfl) (by decide) (by decide) (by rfl) (by decide)).2

/-- C12, counterexample: a store in the standard layout holds three rows, the most recent with
the text "many" as its count.  GetRecentItems(2) reads the two most recent rows, skips the
one that does not scan and returns the single record 2; GetRecentItems(0) returns the two
records 2 and 3, not three.  And in a store whose three rows all scan, with the stored
lastCopiedAt 10000000000, 20 and 10, GetRecentItems(2) returns records 1 and 2 in this order
although record 1 decodes (on amd64) to 2 ^ 63 nanoseconds before the reference, earlier
than record 2. -/
theorem GetRecentItems_limit_counts_skipped_rows :
    RecognizedLayout textCountStore textCountRows 2 ∧
    textCountRows.length = 3 ∧
    (GetRecentItems sampleRuntime textCountStore 2).1.toOption.map
        (List.map (fun item => item.ID)) = some [2] ∧
    (GetRecentItems sampleRuntime textCountStore 0).1.toOption.map
        (List.map (fun item => item.ID)) = some [2, 3] ∧
    RecognizedLayout farFutureStore farFutureRows 2 ∧
    (GetRecentItems sampleRuntime farFutureStore 2).1.toOption.map
        (List.map (fun item => (item.ID, item.LastCopiedAt.nsec)))
      = some [(1, (Date 2001 1 1 0 0 0 0).nsec - 2 ^ 63),
              (2, (Date 2001 1 1 0 0 0 0).nsec + 20000000000)] := by
  refine ⟨Or.inl ⟨⟨_, rfl, rfl⟩, ⟨_, rfl, rfl⟩⟩, rfl, by rfl, by rfl,
    Or.inl ⟨⟨_, rfl, rfl⟩, ⟨_, rfl, rfl⟩⟩, ?_⟩
  have hitems : (GetRecentItems sampleRuntime farFutureStore 2).1
      = Except.ok
          [{ ID := 1, Title := "a", Pin := "", FirstCopiedAt := Time.zero,
             LastCopiedAt := cocoaTimestampToTime sampleRuntime (F64.finite 10000000000 0),
             NumberOfCopies := 5, Application := "", Contents := [] },
           { ID := 2, Title := "b", Pin := "", FirstCopiedAt := Time.zero,
             LastCopiedAt := cocoaTimestampToTime sampleRuntime (F64.finite 20 0),
             NumberOfCopies := 1, Application := "", Contents := [] }] := by rfl
  have h1 := round53_of_log2 (10000000000 * Second) 0 63 (by decide) (by decide) (by decide)
  have ht1 : (cocoaTimestampToTime sampleRuntime (F64.finite 10000000000 0)).nsec
      = (Date 2001 1 1 0 0 0 0).nsec - 2 ^ 63 := by
    simp only [cocoaTimestampToTime, F64.mulInt, h1, Time.Add]
    decide
  have ht2 : (cocoaTimestampToTime sampleRuntime (F64.finite 20 0)).nsec
      = (Date 2001 1 1 0 0 0 0).nsec + 20000000000 := by
    decide
  rw [hitems]
  simp only [Except.toOption, Option.map_some', List.map_cons, List.map_nil, ht1, ht2]

/-- C12, amended: take a store in a recognized layout that holds N rows, all of which scan,
each with a lastCopiedAt that is NULL or a float64 whose product with 10 ^ 9 has a magnitude
of at most 2 ^ 63 - 1025, and that answers the statement ending in ORDER BY lastCopiedAt DESC
with its rows by descending stored lastCopiedAt (NULL last) and the same statement with
LIMIT k with the first k of them.  For 0 < k < N, GetRecentItems(0) returns all N records in
descending lastCopiedAt order and GetRecentItems(k) returns exactly k records: the first k of
those, in descending lastCopiedAt order, each with a lastCopiedAt at least that of every
record left out. -/
theorem GetRecentItems_limit (rt : Runtime) (db : DB) (stored : List (List Value)) (k : Nat)
    (hscan : ∀ row ∈ stored, ∃ item, scannedItem rt db row = some item)
    (hrange : ∀ row ∈ stored, inRangeLast (storedLast row))
    (hdesc : stored.Pairwise (fun r1 r2 => sortsBefore (storedLast r1) (storedLast r2)))
    (hk0 : 0 < k) (hkN : k < stored.length)
    (hstore : RecognizedLayout db stored k) :
    ∃ items all, (GetRecentItems rt db (k : Int)).1 = Except.ok items ∧
      (GetRecentItems rt db 0).1 = Except.ok all ∧
      all.length = stored.length ∧ items.length = k ∧
      items = all.take k ∧ all.Pairwise lastCopiedDesc ∧ items.Pairwise lastCopiedDesc ∧
      ∀ a ∈ items, ∀ b ∈ all.drop k, lastCopiedDesc a b := by
  obtain ⟨hall, hitems⟩ := GetRecentItems_recognized rt db stored k hk0 hstore
  rw [filterMap_take_of_all_some _ _ hscan] at hitems
  have hlen := filterMap_length_of_all_some (scannedItem rt db) stored hscan
  have hsorted := pairwise_lastCopiedDesc rt db stored hrange hdesc
  refine ⟨_, _, hitems, hall, hlen, ?_, rfl, hsorted, ?_, ?_⟩
  · rw [List.length_take, hlen]
    omega
  · exact hsorted.sublist (List.take_sublist _ _)
  · have hsplit := List.take_append_drop k (stored.filterMap (scannedItem rt db))
    rw [← hsplit] at hsorted
    exact (List.pairwise_append.mp hsorted).2.2

/-- Witness of C12 (amended) on a store in the standard layout with three rows, the last with
a NULL lastCopiedAt, and k = 2. -/
theorem GetRecentItems_limit_witness :
    ∃ items all, (GetRecentItems sampleRuntime recentStore ((2 : Nat) : Int)).1 = Except.ok items ∧
      (GetRecentItems sampleRuntime recentStore 0).1 = Except.ok all ∧
      all.length = recentRows.length ∧ items.length = 2 ∧
      items = all.take 2 ∧ all.Pairwise lastCopiedDesc ∧ items.Pairwise lastCopiedDesc ∧
      ∀ a ∈ items, ∀ b ∈ all.drop 2, lastCopiedDesc a b :=
  GetRecentItems_limit sampleRuntime recentStore recentRows 2
    (by
      intro row hrow
      simp only [recentRows, List.mem_cons, List.mem_singleton, List.not_mem_nil, or_false]
        at hrow
      rcases hrow with h | h | h <;> subst h <;> exact ⟨_, rfl⟩)
    (by
      intro row hrow
      simp only [recentRows, List.mem_cons, List.mem_singleton, List.not_mem_nil, or_false]
        at hrow
      rcases hrow with h | h | h <;> subst h
      · exact Or.inr ⟨61, -1, rfl, by norm_num [dyadic, Second, abs_of_pos]⟩
      · exact Or.inr ⟨20, 0, rfl, by norm_num [dyadic, Second, abs_of_pos]⟩
      · exact Or.inl rfl)
    (by
      simp only [recentRows, List.pairwise_cons, List.mem_cons, List.mem_singleton,
        List.not_mem_nil, forall_eq_or_imp, forall_eq, storedLast, List.getD_cons_succ,
        List.getD_cons_zero, sortsBefore, List.Pairwise.nil, IsEmpty.forall_iff, implies_true,
        and_true]
      norm_num [dyadic])
    (by decide) (by decide) (Or.inl ⟨⟨_, rfl, rfl⟩, ⟨_, rfl, rfl⟩⟩)

/-- C14: formatTime returns "<never>" exactly when t is the zero time or the calendar date of
t is 1970-01-01, and otherwise the rendering of t in local time.  Hence a timestamp promoted
from a NULL column is shown as "<never>", and a timestamp stored as the number 0 is shown as
2001-01-01T00:00:00 UTC rendered in local time, which is not "<never>". -/
theorem formatTime_never_iff (Local : Time → Int) (t : Time) (offset : Int) :
    (formatTime Local t offset = "<never>" ↔
      (t = Time.zero ∨ (t.Year offset = 1970 ∧ t.Month offset = 1 ∧ t.Day offset = 1))) ∧
    (¬ (t = Time.zero ∨ (t.Year offset = 1970 ∧ t.Month offset = 1 ∧ t.Day offset = 1)) →
      formatTime Local t offset = t.Format (Local t)) ∧
    (∀ (rt : Runtime) (n : NullableHistoryItem),
      (n.FirstCopiedAt.Valid = false →
        formatTime Local (n.ToHistoryItem rt).FirstCopiedAt 0 = "<never>") ∧
      (n.LastCopiedAt.Valid = false →
        formatTime Local (n.ToHistoryItem rt).LastCopiedAt 0 = "<never>")) ∧
    (∀ (rt : Runtime) (e : Int),
      formatTime Local (cocoaTimestampToTime rt (F64.finite 0 e)) 0
        = (Date 2001 1 1 0 0 0 0).Format (Local (Date 2001 1 1 0 0 0 0)) ∧
      formatTime Local (cocoaTimestampToTime rt (F64.finite 0 e)) 0 ≠ "<never>") := by
  have hcases : ∀ (u : Time) (off : Int),
      ¬ (u = Time.zero ∨ (u.Year off = 1970 ∧ u.Month off = 1 ∧ u.Day off = 1)) →
      formatTime Local u off = u.Format (Local u) := by
    intro u off hn
    have hz : ¬ u.IsZero = true := fun hz => hn (Or.inl ((Time_IsZero_iff u).mp hz))
    have hd : ¬ (u.Year off = 1970 ∧ u.Month off = 1 ∧ u.Day off = 1) := fun hd => hn (Or.inr hd)
    simp only [formatTime, if_neg hz, if_neg hd]
  have hzero : formatTime Local Time.zero 0 = "<never>" := by
    simp [formatTime, Time.IsZero, Time.zero]
  have hcocoa : ∀ (rt : Runtime) (e : Int),
      cocoaTimestampToTime rt (F64.finite 0 e) = Date 2001 1 1 0 0 0 0 := by
    intro rt e
    have hmul : F64.mulInt (F64.finite 0 e) Second = F64.finite 0 e := by
      simp [F64.mulInt, F64.round53]
    have hin : (-2 ^ 63 : Int) ≤ 0 ∧ (0 : Int) < 2 ^ 63 := by decide
    have ht : truncDyadic 0 e = 0 := by simp [truncDyadic]
    simp only [cocoaTimestampToTime, hmul, F64.toInt64, ht, if_pos hin, Time.Add, add_zero]
  have hfmt : formatTime Local (Date 2001 1 1 0 0 0 0) 0
      = (Date 2001 1 1 0 0 0 0).Format (Local (Date 2001 1 1 0 0 0 0)) := by
    apply hcases
    intro h
    rcases h with h | h
    · exact absurd h (by decide)
    · exact absurd h.1 (by decide)
  refine ⟨?_, hcases t offset, ?_, ?_⟩
  · constructor
    · intro h
      by_contra hn
      rw [hcases t offset hn] at h
      exact Format_ne_never t (Local t) h
    · intro h
      rcases h with h | h
      · have hz : t.IsZero = true := (Time_IsZero_iff t).mpr h
        simp only [formatTime, if_pos hz]
      · by_cases hz : t.IsZero = true
        · simp only [formatTime, if_pos hz]
        · simp only [formatTime, if_neg hz, if_pos h]
  · intro rt n
    have hf := (ToHistoryItem_times rt n).1
    have hl := (ToHistoryItem_times rt n).2
    constructor
    · intro hv
      rw [hf, hv]
      exact hzero
    · intro hv
      rw [hl, hv]
      exact hzero
  · intro rt e
    rw [hcocoa rt e, hfmt]
    exact ⟨rfl, Format_ne_never _ _⟩

/-- Witness of C14 with UTC as the local zone: a NULL firstCopiedAt is shown as "<never>", the
stored number 0 as the reference date, and an instant of 1970-01-01 as "<never>". -/
theorem formatTime_never_iff_witness :
    formatTime (fun _ => 0) (nullItem.ToHistoryItem sampleRuntime).FirstCopiedAt 0 = "<never>" ∧
    formatTime (fun _ => 0) (cocoaTimestampToTime sampleRuntime (F64.finite 0 0)) 0
      = "2001-01-01 00:00:00" ∧
    formatTime (fun _ => 0) (Date 1970 1 1 5 0 0 0) 0 = "<never>" :=
  ⟨((formatTime_never_iff (fun _ => 0) Time.zero 0).2.2.1 sampleRuntime nullItem).1 rfl,
   ((formatTime_never_iff (fun _ => 0) Time.zero 0).2.2.2 sampleRuntime 0).1.trans (by rfl),
   (formatTime_never_iff (fun _ => 0) (Date 1970 1 1 5 0 0 0) 0).1.mpr
     (Or.inr (by decide))⟩

end History
